import Mathlib

/-! Threshold BLS over a pairing curve: the `bls` package of gosdk.

A shallow embedding of `src/bls/bls.go`.  The package is a thin layer over the
`miracl` curve library (`BN254`, `core`).  Every definition that stands for a
piece of `miracl` is marked `Modelled from the spec:`; every other definition
is a transcription of a function of `bls.go`, named after it, or of a function
of the Go standard library that `bls.go` calls.

Conventions.
* A Go byte slice is a `List Nat` whose entries are below 256.
* A Go string is a `List Char`, one `Char` for each byte of the string.
* A method with a pointer receiver and result `error` becomes a function that
  returns the receiver after the call together with `Option Error`
  (`none` is Go's `nil`).
* A call that can panic returns an `Outcome`.
-/

namespace bls

/-! ## Constants of the curve package -/

/-- Modelled from the spec: the constants of the absent package `miracl/BN254`
that `bls.go` mentions.  `Modulus` is the coordinate-field modulus and
`CURVE_Order` the scalar-field order r, "the distinct, smaller scalar/order
modulus" of spec §1; `MODBYTES` is the scalar width M of spec §6; `NLEN` and
`CHUNK` are the limb count and the byte size of one limb (`Chunk`), which
`ID.Serialize` multiplies to size its buffer; `MGS` is the size of the scalar
buffer of `SecretKey.GetPublicKey`; `IntSize` is the bit size of Go's `int`.
The facts are the relations between these constants that the package
guarantees. -/
structure Params where
  Modulus : Nat
  CURVE_Order : Nat
  MODBYTES : Nat
  MGS : Nat
  NLEN : Nat
  CHUNK : Nat
  IntSize : Nat
  order_gt_one : 1 < CURVE_Order
  order_lt_modulus : CURVE_Order < Modulus
  modulus_fits : Modulus ≤ 256 ^ MODBYTES
  buffer_fits : MODBYTES ≤ NLEN * CHUNK
  mgs_fits : MODBYTES ≤ MGS

/-- Modelled from the spec: the constants of the 64-bit build of `miracl/BN254`
(the BN curve with u = -(2^62 + 2^55 + 1)): 32-byte scalars, five limbs of
eight bytes each. -/
def BN254 : Params where
  Modulus := 0x2523648240000001BA344D80000000086121000000000013A700000000000013
  CURVE_Order := 0x2523648240000001BA344D8000000007FF9F800000000010A10000000000000D
  MODBYTES := 32
  MGS := 32
  NLEN := 5
  CHUNK := 8
  IntSize := 64
  order_gt_one := by decide
  order_lt_modulus := by decide
  modulus_fits := by decide
  buffer_fits := by decide
  mgs_fits := by decide

/-! ## Errors -/

/-- The Go `error` values that the package can return: `errors.New text` (also
`fmt.Errorf text`), the two kinds of `*strconv.NumError` (`ErrSyntax`,
`ErrRange`) with the offending string, the two errors of `io.ReadFull`, and the
two errors of `encoding/hex` (`InvalidByteError` with the offending byte,
`ErrLength`). -/
inductive Error where
  | New (text : String)
  | ErrSyntax (num : List Char)
  | ErrRange (num : List Char)
  | EOF
  | ErrUnexpectedEOF
  | InvalidByteError (c : Char)
  | ErrLength
deriving DecidableEq, Repr

/-- The ways a Go call ends: it returns a value, or it panics. -/
inductive Outcome (α : Type) where
  | ret (a : α)
  | panic (msg : String)

/-! ## Multi-precision integers (`BIG`) -/

/-- Modelled from the spec: `BN254.Modmul(a, b, m)` of the absent `miracl`
package, the product of `a` and `b` "mod r" (spec §4.2) for the modulus `m`
it is handed. -/
def Modmul (a b m : Nat) : Nat := ((a % m) * (b % m)) % m

/-- Modelled from the spec: `BN254.Modadd(a, b, m)` of the absent `miracl`
package, the sum of `a` and `b` "mod r" (spec §4.2) for the modulus `m` it is
handed. -/
def Modadd (a b m : Nat) : Nat := ((a % m) + (b % m)) % m

/-- Modelled from the spec: the `n`-byte big-endian encoding of `v` (spec §6,
"Scalar: M bytes, big-endian"); bits above `8 * n` are dropped. -/
def toBytesBE : Nat → Nat → List Nat
  | 0, _ => []
  | n + 1, v => toBytesBE n (v / 256) ++ [v % 256]

/-- Modelled from the spec: `BIG.ToBytes(b)` of the absent `miracl` package:
the first `MODBYTES` bytes of the buffer `b` are overwritten with the
big-endian encoding of `v`, the rest of `b` is kept.  (The Go method panics on
a buffer shorter than `MODBYTES`; no caller in `bls.go` passes one, by
`Params.buffer_fits`.) -/
def BIG.ToBytes (P : Params) (v : Nat) (b : List Nat) : List Nat :=
  toBytesBE P.MODBYTES v ++ b.drop P.MODBYTES

/-- Modelled from the spec: `BN254.FromBytes(b)` of the absent `miracl`
package: the big-endian value of the first `MODBYTES` bytes of `b`.  (On a
slice shorter than `MODBYTES` the Go function panics with an index out of
range; the model reads the bytes that are there.) -/
def BIG.FromBytes (P : Params) (b : List Nat) : Nat :=
  (b.take P.MODBYTES).foldl (fun m x => m * 256 + x % 256) 0

/-! ## Field elements (`FP`) -/

/-- Modelled from the spec: the absent `miracl` type `BN254.FP`, which `bls.go`
uses for scalars ("FP as Fr").  `x` is a representative; the integer the
element stands for is `redc`, its residue modulo `Modulus`. -/
structure FP where
  x : Nat
deriving DecidableEq, Repr

/-- Modelled from the spec: `FP.redc()`, the canonical integer of an `FP`
(bls.go lines 441-447: the `FP` operations "are modulo Modulus"). -/
def FP.redc (P : Params) (F : FP) : Nat := F.x % P.Modulus

/-- Modelled from the spec: `FP.GetBIG()` of the absent `miracl` package, the
integer value of the element. -/
def FP.GetBIG (P : Params) (F : FP) : Nat := F.redc P

/-- Modelled from the spec: `BN254.NewFP()`, the zero element. -/
def NewFP : FP := ⟨0⟩

/-- Modelled from the spec: `BN254.NewFPbig(a)`, the field element of the
integer `a`. -/
def NewFPbig (P : Params) (a : Nat) : FP := ⟨a % P.Modulus⟩

/-- Modelled from the spec: `BN254.NewFPcopy(f)`, a fresh copy of `f`. -/
def NewFPcopy (F : FP) : FP := ⟨F.x⟩

/-- Modelled from the spec: `FP.Equals`, equality of the canonical integers. -/
def FP.Equals (P : Params) (F G : FP) : Bool := decide (F.redc P = G.redc P)

/-- Modelled from the spec: `FP.Add`.  bls.go lines 441-447 document the `Add`
and `Mul` of `FP` as operations "modulo "Modulus" (ROM.go)", the
coordinate-field modulus that spec §1 and §4.2 set apart from the order r. -/
def FP.Add (P : Params) (F G : FP) : FP := ⟨(F.redc P + G.redc P) % P.Modulus⟩

/-- Modelled from the spec: `FP.Sub`, the subtraction of the same field as
`FP.Add`: modulo `Modulus`. -/
def FP.Sub (P : Params) (F G : FP) : FP :=
  ⟨(F.redc P + (P.Modulus - G.redc P)) % P.Modulus⟩

/-- Modelled from the spec: `FP.ToBytes(b)`: the canonical integer written
big-endian into the first `MODBYTES` bytes of `b`. -/
def FP.ToBytes (P : Params) (F : FP) (b : List Nat) : List Nat :=
  BIG.ToBytes P (F.redc P) b

/-- Modelled from the spec: `BN254.FP_fromBytes(b)`, the scalar decode of spec
§4.6 and §6: the big-endian value of the block "reduced to canonical range
[0, r)". -/
def FP_fromBytes (P : Params) (b : List Nat) : FP :=
  ⟨BIG.FromBytes P b % P.CURVE_Order⟩

/-! ## Identities and secret keys -/

/-- The type `ID` of bls.go line 253: `struct { v *BN254.FP }`. -/
structure ID where
  v : FP
deriving DecidableEq, Repr

/-- The type `SecretKey` of bls.go line 295: `struct { v *BN254.FP }`. -/
structure SecretKey where
  v : FP
deriving DecidableEq, Repr

instance : Inhabited SecretKey := ⟨⟨NewFP⟩⟩

/-- Transcription of `NewSecretKey` (bls.go line 299). -/
def NewSecretKey : SecretKey := ⟨NewFP⟩

/-- Transcription of `SecretKey_fromBytes` (bls.go line 305). -/
def SecretKey_fromBytes (P : Params) (b : List Nat) : SecretKey := ⟨FP_fromBytes P b⟩

/-- Transcription of `SecretKey_fromFP` (bls.go line 311). -/
def SecretKey_fromFP (fp : FP) : SecretKey := ⟨fp⟩

/-- Transcription of `SecretKey.GetFP` (bls.go line 317). -/
def SecretKey.GetFP (sk : SecretKey) : FP := sk.v

/-- Transcription of `SecretKey.CloneFP` (bls.go line 327). -/
def SecretKey.CloneFP (sk : SecretKey) : FP := NewFPcopy sk.v

/-- Transcription of `SecretKey.Clone` (bls.go line 321). -/
def SecretKey.Clone (sk : SecretKey) : SecretKey := ⟨sk.CloneFP⟩

/-- Transcription of `SecretKey.Add` (bls.go line 398): `sk.v.Add(rhs.v)`. -/
def SecretKey.Add (P : Params) (sk rhs : SecretKey) : SecretKey := ⟨sk.v.Add P rhs.v⟩

/-- Transcription of `SecretKey.SubFP` (bls.go line 402): `sk.v.Sub(fp)`. -/
def SecretKey.SubFP (P : Params) (sk : SecretKey) (fp : FP) : SecretKey := ⟨sk.v.Sub P fp⟩

/-- Transcription of `SecretKey.IsEqual` (bls.go line 460). -/
def SecretKey.IsEqual (P : Params) (sk rhs : SecretKey) : Bool := sk.v.Equals P rhs.v

/-- The loop of `SecretKey.Set` (bls.go lines 432-453),
`for i := len(msk) - 2; i >= 0; i--`, with `n = i + 1` iterations left:
one iteration replaces `sk0` by `Modadd(Modmul(sk0, id0, m), msk[i].v.GetBIG(), m)`. -/
def SecretKey.Set.loop (P : Params) (m id0 : Nat) (msk : List SecretKey) : Nat → Nat → Nat
  | 0, sk0 => sk0
  | i + 1, sk0 =>
    let sk1 := Modmul sk0 id0 m
    let sk2 := Modadd sk1 ((msk.getD i default).v.GetBIG P) m
    SecretKey.Set.loop P m id0 msk i sk2

/-- Transcription of `SecretKey.Set` (bls.go lines 418-458): the share of the polynomial `msk`
at the identity `id`; the result is the receiver after the call and the
returned error. -/
def SecretKey.Set (P : Params) (sk : SecretKey) (msk : List SecretKey) (id : ID) :
    SecretKey × Option Error :=
  if msk.length = 0 then
    (sk, some (Error.New "No secret keys given."))
  else if msk.length = 1 then
    ({ v := (msk.getD 0 default).CloneFP }, none)
  else
    let v := (msk.getD (msk.length - 1) default).CloneFP
    let m := P.CURVE_Order
    let sk0 := v.GetBIG P
    let id0 := id.v.GetBIG P
    let sk0 := SecretKey.Set.loop P m id0 msk (msk.length - 1) sk0
    ({ v := NewFPbig P sk0 }, none)

/-- The share of spec §4.2, in the spec's words:
`acc = a_(k-1); for i from k-2 downto 0: acc = (acc * x + a_i) mod r`,
on the list `[a_0, ..., a_(k-1)]` (`none` for the empty list). -/
def scalarShare (r : Nat) (x : Nat) : List Nat → Option Nat
  | [] => none
  | [a] => some a
  | a :: b :: rest => (scalarShare r x (b :: rest)).map (fun acc => (acc * x + a) % r)

/-! ## Hex strings and decimal parsing (Go standard library) -/

/-- The table `hextable` of Go's `encoding/hex`. -/
def hextable : List Char :=
  ['0', '1', '2', '3', '4', '5', '6', '7', '8', '9', 'a', 'b', 'c', 'd', 'e', 'f']

/-- Go's `hex.EncodeToString`: two lowercase digits per byte, `hextable[v>>4]`
then `hextable[v&0x0f]`. -/
def EncodeToString (src : List Nat) : List Char :=
  src.flatMap (fun v => [hextable.getD (v % 256 / 16) '0', hextable.getD (v % 16) '0'])

/-- The digit loop of Go's `strconv.ParseUint(s, 10, bitSize)` with
`maxVal = 1<<bitSize - 1`: a character that is not a decimal digit is a syntax
error; a range error is reported when `n * 10` would pass `maxUint64`
(`n >= cutoff`) or when the next value passes `maxVal` (`false` stands for
`ErrSyntax`, `true` for `ErrRange`). -/
def ParseUint.loop (maxVal : Nat) : List Char → Nat → Except Bool Nat
  | [], n => .ok n
  | c :: cs, n =>
    if '0' ≤ c ∧ c ≤ '9' then
      let d := c.toNat - '0'.toNat
      let cutoff := (2 ^ 64 - 1) / 10 + 1
      if n ≥ cutoff then .error true
      else
        let n1 := n * 10 + d
        if n1 > maxVal then .error true else ParseUint.loop maxVal cs n1
    else .error false

/-- Go's `strconv.Atoi(s)` for an `int` of `intSize` bits, as
`ParseInt(s, 10, 0)` computes it (the fast path of `Atoi` for short strings
gives the same results): an optional sign and a non-empty run of decimal
digits whose value fits `int`; otherwise a `*NumError` (`ErrSyntax` or
`ErrRange`). -/
def Atoi (intSize : Nat) (s : List Char) : Except Error Int :=
  match s with
  | [] => .error (Error.ErrSyntax s)
  | c :: cs =>
    let neg := c = '-'
    let body := if c = '+' ∨ c = '-' then cs else s
    if body = [] then .error (Error.ErrSyntax s)
    else
      match ParseUint.loop (2 ^ intSize - 1) body 0 with
      | .error false => .error (Error.ErrSyntax s)
      | .error true => .error (Error.ErrRange s)
      | .ok un =>
        let cutoff := 2 ^ (intSize - 1)
        if ¬ neg ∧ un ≥ cutoff then .error (Error.ErrRange s)
        else if neg ∧ un > cutoff then .error (Error.ErrRange s)
        else .ok (if neg then -(un : Int) else (un : Int))

/-- Go's conversion `byte(n)` of an `int`: the low eight bits. -/
def byte (n : Int) : Nat := (n % 256).toNat

/-- Transcription of `ID.Serialize` (bls.go line 280): a zeroed buffer of `NLEN * sizeof(Chunk)`
bytes into which `id.v.ToBytes` writes. -/
def ID.Serialize (P : Params) (id : ID) : List Nat :=
  let b := List.replicate (P.NLEN * P.CHUNK) 0
  id.v.ToBytes P b

/-- Transcription of `ID.GetHexString` (bls.go line 276). -/
def ID.GetHexString (P : Params) (id : ID) : List Char :=
  EncodeToString (id.Serialize P)

/-- Go's `fromHexChar` of `encoding/hex`: the value of a hex digit of either
case, `none` for every other byte. -/
def fromHexChar (c : Char) : Option Nat :=
  if '0' ≤ c ∧ c ≤ '9' then some (c.toNat - '0'.toNat)
  else if 'a' ≤ c ∧ c ≤ 'f' then some (c.toNat - 'a'.toNat + 10)
  else if 'A' ≤ c ∧ c ≤ 'F' then some (c.toNat - 'A'.toNat + 10)
  else none

/-- Go's `hex.DecodeString`: one byte `(a << 4) | b` for each pair of hex
digits.  At the first byte that is no hex digit it stops with
`InvalidByteError`, at a lone last digit with `ErrLength`; in both cases it
returns the bytes decoded up to there together with the error. -/
def DecodeString : List Char → List Nat × Option Error
  | [] => ([], none)
  | [p] =>
    match fromHexChar p with
    | none => ([], some (Error.InvalidByteError p))
    | some _ => ([], some Error.ErrLength)
  | p :: q :: rest =>
    match fromHexChar p, fromHexChar q with
    | none, _ => ([], some (Error.InvalidByteError p))
    | some _, none => ([], some (Error.InvalidByteError q))
    | some a, some b =>
      let r := DecodeString rest
      ((a * 16 + b) :: r.1, r.2)

/-- Transcription of `hex2byte` (bls.go line 52): a string of odd length is
refused with the error "odd length" and no bytes, any other string is handed
to `hex.DecodeString`. -/
def hex2byte (s : List Char) : List Nat × Option Error :=
  if s.length &&& 1 = 1 then
    ([], some (Error.New "odd length"))
  else
    DecodeString s

/-- Transcription of `ID.SetHexString` (bls.go line 267): the receiver after
the call and the returned error. -/
def ID.SetHexString (P : Params) (id : ID) (s : List Char) : ID × Option Error :=
  match hex2byte s with
  | (_, some err) => (id, some err)
  | (b, none) => (⟨FP_fromBytes P b⟩, none)

/-- Modelled from the spec: `FP.ToString()` of the absent `miracl` package: the
lowercase hex string (spec §6, "Hex encoding") of the canonical scalar
encoding, "M bytes, big-endian". -/
def FP.ToString (P : Params) (F : FP) : List Char :=
  EncodeToString (toBytesBE P.MODBYTES (F.redc P))

/-- Transcription of `SecretKey.SerializeToHexStr` (bls.go line 358). -/
def SecretKey.SerializeToHexStr (P : Params) (sk : SecretKey) : List Char :=
  sk.v.ToString P

/-- Transcription of `SecretKey.DeserializeHexStr` (bls.go line 349): the
receiver after the call and the returned error. -/
def SecretKey.DeserializeHexStr (P : Params) (sk : SecretKey) (s : List Char) :
    SecretKey × Option Error :=
  match hex2byte s with
  | (_, some err) => (sk, some err)
  | (b, none) => (⟨FP_fromBytes P b⟩, none)

/-! ## The curve groups -/

/-- Modelled from the spec: the type `SHARE` of the absent `core` package,
with the three fields that `Sign.Recover` assigns (bls.go lines 164-166). -/
structure SHARE where
  ID : Nat
  NSR : Nat
  B : List Nat
deriving DecidableEq, Repr

/-- Modelled from the spec: the group-level primitives of the absent `miracl`
package (spec §6): the generator of G2, the hash-to-curve map into G1
(`bls_hash_to_point`), the pairing, the canonical encodings of G1 points
(compressed, `ECP`) and of G2 points (uncompressed, `ECP2`), and
`core.Recover`, of which `bls.go` shows only the call.  G1 and G2 are written
additively, the pairing target GT multiplicatively. -/
structure Curve (G1 G2 GT : Type) where
  ECP2_generator : G2
  bls_hash_to_point : List Nat → G1
  pair : G1 → G2 → GT
  ECP_ToBytes : G1 → List Nat
  ECP_fromBytes : List Nat → G1
  ECP2_ToBytes : G2 → List Nat
  ECP2_fromBytes : List Nat → G2
  core_Recover : List SHARE → List Nat

/-- Modelled from the spec: what spec §6 and §8 require of the primitives: G1
and G2 have order r, the pairing is bilinear, and decoding undoes encoding
("decode(encode(v)) == v for ... G1, G2 values"). -/
structure Curve.Lawful {G1 G2 GT : Type} [AddCommGroup G1] [AddCommGroup G2] [CommGroup GT]
    (P : Params) (C : Curve G1 G2 GT) : Prop where
  order_G1 : ∀ A : G1, P.CURVE_Order • A = 0
  order_G2 : ∀ Q : G2, P.CURVE_Order • Q = 0
  pair_add_left : ∀ (A B : G1) (Q : G2), C.pair (A + B) Q = C.pair A Q * C.pair B Q
  pair_add_right : ∀ (A : G1) (Q R : G2), C.pair A (Q + R) = C.pair A Q * C.pair A R
  ECP_roundtrip : ∀ A : G1, C.ECP_fromBytes (C.ECP_ToBytes A) = A
  ECP2_roundtrip : ∀ Q : G2, C.ECP2_fromBytes (C.ECP2_ToBytes Q) = Q

section Groups

variable {G1 G2 GT : Type} [AddCommGroup G1] [AddCommGroup G2] [CommGroup GT]
variable [DecidableEq G1] [DecidableEq G2] [DecidableEq GT]

/-- Modelled from the spec: `BN254.G1mul(P, e)`, "scalarMul(P, scalar mod r)"
of spec §6 in G1. -/
def G1mul (P : Params) (A : G1) (e : Nat) : G1 := (e % P.CURVE_Order) • A

/-- Modelled from the spec: `BN254.G2mul(P, e)`, "scalarMul(P, scalar mod r)"
of spec §6 in G2 (bls.go lines 229-231: "G2mul, does operations modulus
CURVE_Order"). -/
def G2mul (P : Params) (Q : G2) (e : Nat) : G2 := (e % P.CURVE_Order) • Q

/-- Modelled from the spec: `BN254.NewECP2()`, the neutral element of G2. -/
def NewECP2 : G2 := 0

/-- Modelled from the spec: the status codes of `BN254`'s BLS functions. -/
def BLS_OK : Int := 0

/-- Modelled from the spec: the failure status code of `BN254`. -/
def BLS_FAIL : Int := -1

/-- Transcription of `ToBytes` (bls.go line 75): the compressed encoding of a G1 point. -/
def ToBytes (C : Curve G1 G2 GT) (E : G1) : List Nat := C.ECP_ToBytes E

/-- Transcription of `ToBytes2` (bls.go line 83): the uncompressed encoding of a G2 point. -/
def ToBytes2 (C : Curve G1 G2 GT) (E : G2) : List Nat := C.ECP2_ToBytes E

/-- Modelled from the spec: `BN254.Core_Sign(SIG, M, S)`: the encoding of
"scalarMul(hashToCurve(message), share)" (spec §4.4), the share read from the
bytes `S`. -/
def Core_Sign (P : Params) (C : Curve G1 G2 GT) (M S : List Nat) : List Nat :=
  C.ECP_ToBytes (G1mul P (C.bls_hash_to_point M) (BIG.FromBytes P S))

/-- Modelled from the spec: `BN254.Core_Verify(SIG, M, W)`: `BLS_OK` "iff the
pairing equation pairing(signature, G2-generator) ==
pairing(hashToCurve(message), publicKey) holds" (spec §4.4). -/
def Core_Verify (C : Curve G1 G2 GT) (SIG M W : List Nat) : Int :=
  if C.pair (C.ECP_fromBytes SIG) C.ECP2_generator
      = C.pair (C.bls_hash_to_point M) (C.ECP2_fromBytes W) then BLS_OK else BLS_FAIL

/-- Modelled from the spec: `BN254.MPIN_GET_SERVER_SECRET(S, SST)`: the
encoding of the G2 generator scaled by the scalar read from `S` ("publicOf"). -/
def MPIN_GET_SERVER_SECRET (P : Params) (C : Curve G1 G2 GT) (S : List Nat) : List Nat :=
  C.ECP2_ToBytes (G2mul P C.ECP2_generator (BIG.FromBytes P S))

/-- The type `Sign` of bls.go line 116: `struct { v *BN254.ECP }`. -/
structure Sign (G1 : Type) where
  v : G1
deriving DecidableEq

/-- The type `PublicKey` of bls.go line 182: `struct { v *BN254.ECP2 }`. -/
structure PublicKey (G2 : Type) where
  v : G2
deriving DecidableEq

/-- Transcription of `NewPublicKey` (bls.go line 186). -/
def NewPublicKey : PublicKey G2 := ⟨NewECP2⟩

/-- Transcription of `Sign.Add` (bls.go line 120). -/
def Sign.Add (sig rhs : Sign G1) : Sign G1 := ⟨sig.v + rhs.v⟩

/-- Transcription of `PublicKey.Add` (bls.go line 215). -/
def PublicKey.Add (pk rhs : PublicKey G2) : PublicKey G2 := ⟨pk.v + rhs.v⟩

/-- Transcription of `PublicKey.IsEqual` (bls.go line 241). -/
def PublicKey.IsEqual (pk rhs : PublicKey G2) : Bool := decide (pk.v = rhs.v)

/-- Transcription of `Sign.Verify` (bls.go line 148). -/
def Sign.Verify (C : Curve G1 G2 GT) (sig : Sign G1) (pub : PublicKey G2) (m : List Nat) : Bool :=
  let b := Core_Verify C (ToBytes C sig.v) m (ToBytes2 C pub.v)
  b == BLS_OK

/-- Transcription of `SecretKey.Sign` (bls.go line 362). -/
def SecretKey.Sign (P : Params) (C : Curve G1 G2 GT) (sk : SecretKey) (m : List Nat) : Sign G1 :=
  let b3 := sk.v.ToBytes P (List.replicate P.MODBYTES 0)
  let SIG := Core_Sign P C m b3
  ⟨C.ECP_fromBytes SIG⟩

/-- Transcription of `SecretKey.GetPublicKey` (bls.go line 381). -/
def SecretKey.GetPublicKey (P : Params) (C : Curve G1 G2 GT) (sk : SecretKey) : PublicKey G2 :=
  let S := sk.v.ToBytes P (List.replicate P.MGS 0)
  let SST := MPIN_GET_SERVER_SECRET P C S
  ⟨C.ECP2_fromBytes SST⟩

/-- Transcription of `GetMasterPublicKey` (bls.go line 98): `mpk[i] = *msk[i].GetPublicKey()`
for every `i < len(msk)`. -/
def GetMasterPublicKey (P : Params) (C : Curve G1 G2 GT) (msk : List SecretKey) :
    List (PublicKey G2) :=
  msk.map (fun sk => SecretKey.GetPublicKey P C sk)

/-- The loop of `PublicKey.Set` (bls.go lines 228-237),
`for i := len(pks) - 2; i >= 0; i--`, with `n = i + 1` iterations left:
one iteration replaces `pk.v` by `G2mul(pk.v, id.v.GetBIG())` and adds
`pks[i].v` to it. -/
def PublicKey.Set.loop (P : Params) (id : ID) (pks : List (PublicKey G2)) : Nat → G2 → G2
  | 0, v => v
  | i + 1, v =>
    let v1 := G2mul P v (id.v.GetBIG P)
    let v2 := v1 + (pks.getD i ⟨NewECP2⟩).v
    PublicKey.Set.loop P id pks i v2

/-- Transcription of `PublicKey.Set` (bls.go lines 219-239): the commitment polynomial `pks`
evaluated at the identity `id`; the result is the receiver after the call and
the returned error. -/
def PublicKey.Set (P : Params) (_pk : PublicKey G2) (pks : List (PublicKey G2)) (id : ID) :
    PublicKey G2 × Option Error :=
  let v : G2 := NewECP2
  if pks.length = 0 then
    (⟨v⟩, some (Error.New "No secret keys given."))
  else
    let v := (pks.getD (pks.length - 1) ⟨NewECP2⟩).v
    if pks.length = 1 then
      (⟨v⟩, none)
    else
      (⟨PublicKey.Set.loop P id pks (pks.length - 1) v⟩, none)

/-- The loop of `Sign.Recover` (bls.go lines 156-168), `for i := 0; i < N; i++`,
with `n = N - i` iterations left and `shs` the shares built so far.  It ends
with the shares, with the error of `strconv.Atoi`, or with the panic of
`from[i]` on a list `from` that is too short. -/
def Sign.Recover.loop (P : Params) (C : Curve G1 G2 GT) (shares : List (Sign G1))
    (from' : List ID) (N : Nat) : Nat → Nat → List SHARE → Outcome (Except Error (List SHARE))
  | 0, _, shs => .ret (.ok shs)
  | n + 1, i, shs =>
    match from'[i]? with
    | none => .panic "index out of range"
    | some id =>
      match Atoi P.IntSize (id.GetHexString P) with
      | .error err => .ret (.error err)
      | .ok idv =>
        let sh : SHARE :=
          { B := ToBytes C (shares.getD i ⟨0⟩).v, ID := byte idv, NSR := byte (N : Int) }
        Sign.Recover.loop P C shares from' N n (i + 1) (shs ++ [sh])

/-- Transcription of `Sign.Recover` (bls.go lines 153-172): the result is the receiver after
the call and the returned error. -/
def Sign.Recover (P : Params) (C : Curve G1 G2 GT) (sig : Sign G1) (shares : List (Sign G1))
    (from' : List ID) : Outcome (Sign G1 × Option Error) :=
  let N := shares.length
  match Sign.Recover.loop P C shares from' N N 0 [] with
  | .panic msg => .panic msg
  | .ret (.error err) => .ret (sig, some err)
  | .ret (.ok shs) =>
    let b := C.core_Recover shs
    .ret (⟨C.ECP_fromBytes b⟩, none)

end Groups

/-! ## The random source and key generation -/

/-- An `io.Reader` handed to `SetRandFunc`: the bytes it still delivers, and
the error it reports once they are used up (`none`: end of stream). -/
structure Reader where
  data : List Nat
  fault : Option Error

/-- Go's `io.ReadFull` on a `Reader`, as `binary.Read` calls it for a byte
slice of length `n`: the next `n` bytes, or an error when fewer are left. -/
def Reader.ReadFull (rd : Reader) (n : Nat) : Except Error (List Nat × Reader) :=
  if n ≤ rd.data.length then
    .ok (rd.data.take n, { rd with data := rd.data.drop n })
  else
    match rd.fault with
    | some err => .error err
    | none => .error (if rd.data = [] then Error.EOF else Error.ErrUnexpectedEOF)

/-- The process-wide random state: the reader `sRandReader` (bls.go line 24;
`none` is `nil`) and the stream of Go's default `math/rand` generator with the
number of bytes already drawn from it. -/
structure RandState where
  sRandReader : Option Reader
  mathRand : Nat → Nat
  drawn : Nat

/-- Transcription of `SetRandFunc` (bls.go line 28). -/
def SetRandFunc (W : RandState) (randReader : Option Reader) : RandState :=
  { W with sRandReader := randReader }

/-- Transcription of `SecretKey.SetByCSPRNG` (bls.go lines 331-346): the random state and the
receiver after the call, and the returned error; a failed read panics. -/
def SecretKey.SetByCSPRNG (P : Params) (W : RandState) (_sk : SecretKey) :
    Outcome (RandState × SecretKey × Option Error) :=
  match W.sRandReader with
  | none =>
    let b := (List.range P.MODBYTES).map (fun i => W.mathRand (W.drawn + i) % 256)
    .ret ({ W with drawn := W.drawn + P.MODBYTES }, ⟨FP_fromBytes P b⟩, none)
  | some rd =>
    match rd.ReadFull P.MODBYTES with
    | .error _ =>
      .panic "Couldn't read from sRandReader. Got an error (printed out on previous lines."
    | .ok (b, rd1) =>
      .ret ({ W with sRandReader := some rd1 }, ⟨FP_fromBytes P b⟩, none)

/-- The loop of `SecretKey.GetMasterSecretKey` (bls.go lines 409-411),
`for i := 1; i < k; i++ { msk[i].SetByCSPRNG() }`, with `n = k - i` iterations
left and `msk` the entries set so far. -/
def SecretKey.GetMasterSecretKey.loop (P : Params) :
    Nat → RandState → List SecretKey → Outcome (RandState × List SecretKey)
  | 0, W, msk => .ret (W, msk)
  | n + 1, W, msk =>
    match SecretKey.SetByCSPRNG P W NewSecretKey with
    | .panic msg => .panic msg
    | .ret (W1, ski, _) => SecretKey.GetMasterSecretKey.loop P n W1 (msk ++ [ski])

/-- Transcription of `SecretKey.GetMasterSecretKey` (bls.go lines 406-413): `make` panics on a
negative `k` and `msk[0] = *sk` on `k = 0`. -/
def SecretKey.GetMasterSecretKey (P : Params) (W : RandState) (sk : SecretKey) (k : Int) :
    Outcome (RandState × List SecretKey) :=
  if k < 0 then .panic "makeslice: len out of range"
  else if k = 0 then .panic "index out of range [0] with length 0"
  else SecretKey.GetMasterSecretKey.loop P (k.toNat - 1) W [sk]

/-! ## A small instance of the primitives -/

instance : NeZero BN254.CURVE_Order := ⟨by decide⟩

/-- The integers modulo the order r of `BN254`, the carrier of the instance
`zmodCurve`. -/
def Zr : Type := ZMod BN254.CURVE_Order

/-- The element of `Zr` with a given residue. -/
def Zr.mk (a : ZMod BN254.CURVE_Order) : Zr := a

/-- The residue of an element of `Zr`. -/
def Zr.val (a : Zr) : ZMod BN254.CURVE_Order := a

instance : DecidableEq Zr := inferInstanceAs (DecidableEq (ZMod BN254.CURVE_Order))

/-- The additive group of `Zr`; a multiple `n • a` is computed as the product
of the residues, in one step. -/
instance : AddCommGroup Zr :=
  { (inferInstanceAs (AddCommGroup (ZMod BN254.CURVE_Order))) with
    nsmul := fun n a => Zr.mk ((n : ZMod BN254.CURVE_Order) * Zr.val a)
    nsmul_zero := fun a => by
      show ((0 : Nat) : ZMod BN254.CURVE_Order) * Zr.val a = 0
      simp
    nsmul_succ := fun n a => by
      show ((n + 1 : Nat) : ZMod BN254.CURVE_Order) * Zr.val a
        = (n : ZMod BN254.CURVE_Order) * Zr.val a + Zr.val a
      push_cast
      ring }

/-- An instance of the primitives over the constants of `BN254`: G1 and G2 are
the integers modulo r under addition, generated by 1; the pairing of `a` and
`b` is the product `a * b`, read multiplicatively; a point is encoded as the
32 big-endian bytes of its residue. -/
def zmodCurve : Curve Zr Zr (Multiplicative (ZMod BN254.CURVE_Order)) where
  ECP2_generator := Zr.mk 1
  bls_hash_to_point := fun M =>
    Zr.mk ((M.foldl (fun h x => h * 257 + x + 1) 1 : Nat) : ZMod BN254.CURVE_Order)
  pair := fun a b => Multiplicative.ofAdd (Zr.val a * Zr.val b)
  ECP_ToBytes := fun a => toBytesBE BN254.MODBYTES (ZMod.val (Zr.val a))
  ECP_fromBytes := fun b => Zr.mk ((BIG.FromBytes BN254 b : Nat) : ZMod BN254.CURVE_Order)
  ECP2_ToBytes := fun a => toBytesBE BN254.MODBYTES (ZMod.val (Zr.val a))
  ECP2_fromBytes := fun b => Zr.mk ((BIG.FromBytes BN254 b : Nat) : ZMod BN254.CURVE_Order)
  core_Recover := fun shs => (shs.getD 0 ⟨0, 0, []⟩).B

/-- The commitment evaluation of spec §4.3, in the spec's words:
`acc = P_(k-1); for i from k-2 downto 0: acc = scalarMul(acc, x) + P_i`,
on the list `[P_0, ..., P_(k-1)]` (`none` for the empty list). -/
def commitmentEval {G2 : Type} [AddCommGroup G2] (P : Params) (x : Nat) : List G2 → Option G2
  | [] => none
  | [A] => some A
  | A :: B :: rest => (commitmentEval P x (B :: rest)).map (fun acc => G2mul P acc x + A)

/-! ## Arithmetic lemmas -/

theorem toBytesBE_length (n v : Nat) : (toBytesBE n v).length = n := by
  induction n generalizing v with
  | zero => simp [toBytesBE]
  | succ n ih => simp [toBytesBE, ih]

theorem foldl_toBytesBE (n v acc : Nat) :
    (toBytesBE n v).foldl (fun m x => m * 256 + x % 256) acc = acc * 256 ^ n + v % 256 ^ n := by
  induction n generalizing v acc with
  | zero => simp [toBytesBE, Nat.mod_one]
  | succ n ih =>
    simp only [toBytesBE, List.foldl_append, List.foldl_cons, List.foldl_nil, ih]
    have h : v % (256 * 256 ^ n) = v % 256 + 256 * (v / 256 % 256 ^ n) := Nat.mod_mul
    rw [pow_succ, Nat.mul_comm (256 ^ n) 256, h, Nat.mod_mod]
    ring

theorem BIG.FromBytes_ToBytes (P : Params) (v : Nat) (b : List Nat) :
    BIG.FromBytes P (BIG.ToBytes P v b) = v % 256 ^ P.MODBYTES := by
  unfold BIG.FromBytes BIG.ToBytes
  rw [List.take_append_of_le_length (by rw [toBytesBE_length]),
    List.take_of_length_le (by rw [toBytesBE_length]), foldl_toBytesBE]
  simp

theorem FP.redc_lt (P : Params) (F : FP) : F.redc P < P.Modulus :=
  Nat.mod_lt _ (lt_trans (Nat.zero_lt_of_lt P.order_gt_one) P.order_lt_modulus)

theorem FP.FromBytes_ToBytes_redc (P : Params) (F : FP) (b : List Nat) :
    BIG.FromBytes P (F.ToBytes P b) = F.redc P := by
  unfold FP.ToBytes
  rw [BIG.FromBytes_ToBytes]
  exact Nat.mod_eq_of_lt (lt_of_lt_of_le (F.redc_lt P) P.modulus_fits)

theorem Modadd_Modmul_modEq (a x b m : Nat) :
    Modadd (Modmul a x m) b m ≡ a * x + b [MOD m] := by
  unfold Modadd Modmul
  have h1 : (a % m) * (x % m) % m ≡ a * x [MOD m] :=
    (Nat.mod_modEq _ _).trans ((Nat.mod_modEq a m).mul (Nat.mod_modEq x m))
  exact (Nat.mod_modEq _ _).trans
    (((Nat.mod_modEq _ _).trans h1).add (Nat.mod_modEq b m))

theorem Modadd_lt (a b m : Nat) (hm : 0 < m) : Modadd a b m < m := Nat.mod_lt _ hm

/-- The loop of `SecretKey.Set` is congruent modulo `m` to the polynomial with
leading block `sk0`. -/
theorem SecretKey.Set.loop_modEq (P : Params) (m id0 : Nat) (msk : List SecretKey)
    (n sk0 : Nat) :
    SecretKey.Set.loop P m id0 msk n sk0 ≡
      sk0 * id0 ^ n + ∑ i ∈ Finset.range n, (msk.getD i default).v.GetBIG P * id0 ^ i [MOD m] := by
  induction n generalizing sk0 with
  | zero => simp [SecretKey.Set.loop, Nat.ModEq]
  | succ n ih =>
    simp only [SecretKey.Set.loop]
    refine (ih _).trans ?_
    rw [Finset.sum_range_succ]
    have h := (Modadd_Modmul_modEq sk0 id0 ((msk.getD n default).v.GetBIG P) m).mul_right (id0 ^ n)
    have h2 := h.add_right (∑ i ∈ Finset.range n, (msk.getD i default).v.GetBIG P * id0 ^ i)
    refine h2.trans ?_
    have : (sk0 * id0 + (msk.getD n default).v.GetBIG P) * id0 ^ n
          + ∑ i ∈ Finset.range n, (msk.getD i default).v.GetBIG P * id0 ^ i
        = sk0 * id0 ^ (n + 1) + (∑ i ∈ Finset.range n, (msk.getD i default).v.GetBIG P * id0 ^ i
          + (msk.getD n default).v.GetBIG P * id0 ^ n) := by ring
    rw [this]

/-- After at least one iteration the loop of `SecretKey.Set` holds a residue. -/
theorem SecretKey.Set.loop_lt (P : Params) (m id0 : Nat) (msk : List SecretKey) (hm : 0 < m)
    (n sk0 : Nat) : SecretKey.Set.loop P m id0 msk (n + 1) sk0 < m := by
  induction n generalizing sk0 with
  | zero => simp only [SecretKey.Set.loop]; exact Modadd_lt _ _ _ hm
  | succ n ih =>
    rw [SecretKey.Set.loop]
    exact ih _

/-- The polynomial of a list with one more coefficient in front. -/
theorem sum_range_getD_cons (a : Nat) (l : List Nat) (x : Nat) :
    ∑ i ∈ Finset.range (a :: l).length, (a :: l).getD i 0 * x ^ i
      = a + x * ∑ i ∈ Finset.range l.length, l.getD i 0 * x ^ i := by
  rw [List.length_cons, Finset.sum_range_succ', Finset.mul_sum]
  simp only [List.getD_cons_succ, List.getD_cons_zero, pow_zero, mul_one]
  rw [add_comm]
  congr 1
  apply Finset.sum_congr rfl
  intro i _
  ring

/-- The recurrence of spec §4.2 on a list of at least two coefficients is the
polynomial reduced modulo r. -/
theorem scalarShare_cons_cons (r x a b : Nat) (rest : List Nat) :
    scalarShare r x (a :: b :: rest)
      = some ((∑ i ∈ Finset.range (a :: b :: rest).length,
          (a :: b :: rest).getD i 0 * x ^ i) % r) := by
  induction rest generalizing a b with
  | nil =>
    simp [scalarShare, Finset.sum_range_succ]
    congr 1
    ring
  | cons c rest ih =>
    rw [scalarShare, ih, sum_range_getD_cons a]
    simp only [Option.map_some']
    congr 1
    have : ((∑ i ∈ Finset.range (b :: c :: rest).length,
          (b :: c :: rest).getD i 0 * x ^ i) % r * x + a)
        ≡ (∑ i ∈ Finset.range (b :: c :: rest).length,
          (b :: c :: rest).getD i 0 * x ^ i) * x + a [MOD r] :=
      ((Nat.mod_modEq _ _).mul_right x).add_right a
    rw [this, add_comm, mul_comm]

theorem default_GetBIG (P : Params) : (default : SecretKey).v.GetBIG P = 0 := by
  show (0 : Nat) % P.Modulus = 0
  exact Nat.zero_mod _

/-- The polynomial over the keys is the polynomial over their integer values. -/
theorem sum_map_GetBIG (P : Params) (msk : List SecretKey) (x : Nat) :
    ∑ i ∈ Finset.range (msk.map (fun a => a.v.GetBIG P)).length,
        (msk.map (fun a => a.v.GetBIG P)).getD i 0 * x ^ i
      = ∑ i ∈ Finset.range msk.length, (msk.getD i default).v.GetBIG P * x ^ i := by
  rw [List.length_map]
  apply Finset.sum_congr rfl
  intro i _
  rw [← default_GetBIG P, List.getD_map]

/-- What `SecretKey.Set` computes on a list of at least two keys. -/
theorem SecretKey.Set_cons_cons (P : Params) (sk a b : SecretKey) (rest : List SecretKey)
    (id : ID) :
    SecretKey.Set P sk (a :: b :: rest) id
      = (⟨⟨(∑ i ∈ Finset.range (a :: b :: rest).length,
          ((a :: b :: rest).getD i default).v.GetBIG P * id.v.GetBIG P ^ i) % P.CURVE_Order⟩⟩,
        none) := by
  have hr : 0 < P.CURVE_Order := Nat.zero_lt_of_lt P.order_gt_one
  have hlen : (a :: b :: rest).length - 1 = rest.length + 1 := by simp
  have hlt := SecretKey.Set.loop_lt P P.CURVE_Order (id.v.GetBIG P) (a :: b :: rest) hr
    rest.length (((a :: b :: rest).getD (rest.length + 1) default).CloneFP.GetBIG P)
  have hmod := SecretKey.Set.loop_modEq P P.CURVE_Order (id.v.GetBIG P) (a :: b :: rest)
    (rest.length + 1) (((a :: b :: rest).getD (rest.length + 1) default).CloneFP.GetBIG P)
  have hsum : ∑ i ∈ Finset.range (a :: b :: rest).length,
        ((a :: b :: rest).getD i default).v.GetBIG P * id.v.GetBIG P ^ i
      = ((a :: b :: rest).getD (rest.length + 1) default).CloneFP.GetBIG P
          * id.v.GetBIG P ^ (rest.length + 1)
        + ∑ i ∈ Finset.range (rest.length + 1),
          ((a :: b :: rest).getD i default).v.GetBIG P * id.v.GetBIG P ^ i := by
    have : (a :: b :: rest).length = (rest.length + 1) + 1 := by simp
    rw [this, Finset.sum_range_succ, add_comm]
    rfl
  rw [← hsum] at hmod
  have hval : SecretKey.Set.loop P P.CURVE_Order (id.v.GetBIG P) (a :: b :: rest)
        (rest.length + 1) (((a :: b :: rest).getD (rest.length + 1) default).CloneFP.GetBIG P)
      = (∑ i ∈ Finset.range (a :: b :: rest).length,
          ((a :: b :: rest).getD i default).v.GetBIG P * id.v.GetBIG P ^ i) % P.CURVE_Order := by
    rw [← Nat.mod_eq_of_lt hlt]
    exact hmod
  have hp : (∑ i ∈ Finset.range (a :: b :: rest).length,
        ((a :: b :: rest).getD i default).v.GetBIG P * id.v.GetBIG P ^ i) % P.CURVE_Order
      < P.Modulus := lt_trans (Nat.mod_lt _ hr) P.order_lt_modulus
  unfold SecretKey.Set
  rw [if_neg (by simp), if_neg (by simp)]
  simp only [hlen, hval, NewFPbig, Nat.mod_eq_of_lt hp]

/-! ## The commitment polynomial -/

section GroupLemmas

variable {G1 G2 GT : Type} [AddCommGroup G1] [AddCommGroup G2] [CommGroup GT]

/-- In a group of exponent r a multiple depends on the residue of the scalar
only. -/
theorem mod_order_nsmul {G : Type} [AddCommGroup G] (r a : Nat) (Q : G) (h : r • Q = 0) :
    (a % r) • Q = a • Q := by
  conv_rhs => rw [← Nat.div_add_mod a r]
  rw [add_nsmul, mul_nsmul, h, nsmul_zero, zero_add]

theorem nsmul_congr_of_modEq {G : Type} [AddCommGroup G] (r a b : Nat) (Q : G)
    (h : r • Q = 0) (hab : a ≡ b [MOD r]) : a • Q = b • Q := by
  rw [← mod_order_nsmul r a Q h, ← mod_order_nsmul r b Q h, hab]

/-- The loop of `PublicKey.Set` in closed form. -/
theorem PublicKey.Set.loop_eq (P : Params) (id : ID) (pks : List (PublicKey G2))
    (n : Nat) (v : G2) :
    PublicKey.Set.loop P id pks n v
      = (id.v.GetBIG P % P.CURVE_Order) ^ n • v
        + ∑ i ∈ Finset.range n,
            (id.v.GetBIG P % P.CURVE_Order) ^ i • (pks.getD i ⟨NewECP2⟩).v := by
  induction n generalizing v with
  | zero => simp [PublicKey.Set.loop]
  | succ n ih =>
    simp only [PublicKey.Set.loop, G2mul]
    rw [ih, Finset.sum_range_succ, smul_add, pow_succ', mul_nsmul]
    abel

/-- What `PublicKey.Set` computes on a non-empty list. -/
theorem PublicKey.Set_eq_sum (P : Params) (pk : PublicKey G2) (pks : List (PublicKey G2))
    (id : ID) (hne : pks ≠ []) :
    PublicKey.Set P pk pks id
      = (⟨∑ i ∈ Finset.range pks.length,
            (id.v.GetBIG P % P.CURVE_Order) ^ i • (pks.getD i ⟨NewECP2⟩).v⟩, none) := by
  match pks, hne with
  | [A], _ => simp [PublicKey.Set]
  | A :: B :: rest, _ =>
    unfold PublicKey.Set
    rw [if_neg (by simp)]
    simp only
    rw [if_neg (by simp), PublicKey.Set.loop_eq]
    have hlen : (A :: B :: rest).length = ((A :: B :: rest).length - 1) + 1 := by simp
    conv_rhs => rw [hlen, Finset.sum_range_succ]
    rw [add_comm]

/-- The polynomial of a list of points with one more point in front. -/
theorem sum_range_getD_cons_nsmul (c : Nat) (A : G2) (l : List G2) :
    ∑ i ∈ Finset.range (A :: l).length, c ^ i • (A :: l).getD i 0
      = A + c • ∑ i ∈ Finset.range l.length, c ^ i • l.getD i 0 := by
  rw [List.length_cons, Finset.sum_range_succ', Finset.smul_sum]
  simp only [List.getD_cons_succ, List.getD_cons_zero, pow_zero, one_smul]
  rw [add_comm]
  congr 1
  apply Finset.sum_congr rfl
  intro i _
  rw [pow_succ, mul_nsmul]

/-- The recurrence of spec §4.3 in closed form. -/
theorem commitmentEval_eq_sum (P : Params) (x : Nat) (A : G2) (l : List G2) :
    commitmentEval P x (A :: l)
      = some (∑ i ∈ Finset.range (A :: l).length,
          (x % P.CURVE_Order) ^ i • (A :: l).getD i 0) := by
  induction l generalizing A with
  | nil => simp [commitmentEval]
  | cons B rest ih =>
    rw [commitmentEval, ih, sum_range_getD_cons_nsmul _ A]
    simp only [Option.map_some', G2mul]
    rw [add_comm]

theorem sum_map_v (c : Nat) (pks : List (PublicKey G2)) :
    ∑ i ∈ Finset.range (pks.map (fun pk => pk.v)).length,
        c ^ i • (pks.map (fun pk => pk.v)).getD i 0
      = ∑ i ∈ Finset.range pks.length, c ^ i • (pks.getD i ⟨NewECP2⟩).v := by
  rw [List.length_map]
  apply Finset.sum_congr rfl
  intro i _
  have : (0 : G2) = (fun pk : PublicKey G2 => pk.v) ⟨NewECP2⟩ := rfl
  rw [this, List.getD_map]

/-- The G2 generator scaled by the key: what `SecretKey.GetPublicKey` returns. -/
theorem SecretKey.GetPublicKey_v (P : Params) (C : Curve G1 G2 GT)
    (hL : C.Lawful P) (sk : SecretKey) :
    (SecretKey.GetPublicKey P C sk).v = (sk.v.GetBIG P % P.CURVE_Order) • C.ECP2_generator := by
  simp only [SecretKey.GetPublicKey, MPIN_GET_SERVER_SECRET, hL.ECP2_roundtrip,
    FP.FromBytes_ToBytes_redc, G2mul, FP.GetBIG]

/-- The hashed message scaled by the key: what `SecretKey.Sign` returns. -/
theorem SecretKey.Sign_v (P : Params) (C : Curve G1 G2 GT) (hL : C.Lawful P)
    (sk : SecretKey) (m : List Nat) :
    (SecretKey.Sign P C sk m).v = (sk.v.GetBIG P % P.CURVE_Order) • C.bls_hash_to_point m := by
  simp only [SecretKey.Sign, Core_Sign, hL.ECP_roundtrip, FP.FromBytes_ToBytes_redc, G1mul,
    FP.GetBIG]

/-- The share of `SecretKey.Set`, as a scalar on a point of order r, is the
polynomial in the identity. -/
theorem SecretKey.Set_GetBIG_nsmul {G : Type} [AddCommGroup G] (P : Params) (sk : SecretKey)
    (msk : List SecretKey) (id : ID) (hne : msk ≠ []) (Q : G) (hQ : P.CURVE_Order • Q = 0) :
    ((SecretKey.Set P sk msk id).1.v.GetBIG P % P.CURVE_Order) • Q
      = (∑ i ∈ Finset.range msk.length,
          (msk.getD i default).v.GetBIG P * id.v.GetBIG P ^ i) • Q := by
  rw [mod_order_nsmul _ _ _ hQ]
  match msk, hne with
  | [a], _ =>
    have : (SecretKey.Set P sk [a] id).1.v.GetBIG P = a.v.GetBIG P := rfl
    rw [this]
    simp
  | a :: b :: rest, _ =>
    have hr : 0 < P.CURVE_Order := Nat.zero_lt_of_lt P.order_gt_one
    rw [SecretKey.Set_cons_cons]
    have hp : (∑ i ∈ Finset.range (a :: b :: rest).length,
          ((a :: b :: rest).getD i default).v.GetBIG P * id.v.GetBIG P ^ i) % P.CURVE_Order
        < P.Modulus := lt_trans (Nat.mod_lt _ hr) P.order_lt_modulus
    show ((_ % P.CURVE_Order) % P.Modulus) • Q = _
    rw [Nat.mod_eq_of_lt hp, mod_order_nsmul _ _ _ hQ]

/-- The commitment polynomial over the public keys of `msk` is the scalar
polynomial over `msk` times the generator. -/
theorem PublicKey.Set_GetMasterPublicKey (P : Params) (C : Curve G1 G2 GT) (hL : C.Lawful P)
    (pk : PublicKey G2) (msk : List SecretKey) (id : ID) (hne : msk ≠ []) :
    PublicKey.Set P pk (GetMasterPublicKey P C msk) id
      = (⟨(∑ i ∈ Finset.range msk.length,
            (msk.getD i default).v.GetBIG P * id.v.GetBIG P ^ i) • C.ECP2_generator⟩, none) := by
  have hne2 : GetMasterPublicKey P C msk ≠ [] := by
    simpa [GetMasterPublicKey] using hne
  rw [PublicKey.Set_eq_sum P pk _ id hne2, Finset.sum_smul]
  have hlen : (GetMasterPublicKey P C msk).length = msk.length := by
    simp [GetMasterPublicKey]
  rw [hlen]
  congr 2
  apply Finset.sum_congr rfl
  intro i hi
  have hi2 : i < msk.length := Finset.mem_range.mp hi
  have hget : ((GetMasterPublicKey P C msk).getD i ⟨NewECP2⟩).v
      = ((msk.getD i default).v.GetBIG P % P.CURVE_Order) • C.ECP2_generator := by
    rw [List.getD_eq_getElem _ _ (by rw [hlen]; exact hi2), List.getD_eq_getElem _ _ hi2]
    simp only [GetMasterPublicKey, List.getElem_map]
    exact SecretKey.GetPublicKey_v P C hL _
  rw [hget, ← mul_nsmul]
  exact nsmul_congr_of_modEq P.CURVE_Order _ _ _ (hL.order_G2 _)
    ((Nat.mod_modEq _ _).mul ((Nat.mod_modEq _ _).pow i))

theorem Curve.Lawful.pair_zero_left {P : Params} {C : Curve G1 G2 GT} (hL : C.Lawful P)
    (Q : G2) : C.pair 0 Q = 1 := by
  have h := hL.pair_add_left 0 0 Q
  rw [add_zero] at h
  exact self_eq_mul_right.mp h

theorem Curve.Lawful.pair_zero_right {P : Params} {C : Curve G1 G2 GT} (hL : C.Lawful P)
    (A : G1) : C.pair A 0 = 1 := by
  have h := hL.pair_add_right A 0 0
  rw [add_zero] at h
  exact self_eq_mul_right.mp h

/-- Bilinearity for multiples on the left. -/
theorem Curve.Lawful.pair_nsmul_left {P : Params} {C : Curve G1 G2 GT} (hL : C.Lawful P)
    (n : Nat) (A : G1) (Q : G2) : C.pair (n • A) Q = C.pair A Q ^ n := by
  induction n with
  | zero => rw [zero_nsmul, pow_zero, hL.pair_zero_left]
  | succ n ih => rw [succ_nsmul, hL.pair_add_left, ih, pow_succ]

/-- Bilinearity for multiples on the right. -/
theorem Curve.Lawful.pair_nsmul_right {P : Params} {C : Curve G1 G2 GT} (hL : C.Lawful P)
    (n : Nat) (A : G1) (Q : G2) : C.pair A (n • Q) = C.pair A Q ^ n := by
  induction n with
  | zero => rw [zero_nsmul, pow_zero, hL.pair_zero_right]
  | succ n ih => rw [succ_nsmul, hL.pair_add_right, ih, pow_succ]

end GroupLemmas

/-! ## The instance over the integers modulo r -/

theorem Zr_order (Q : Zr) : BN254.CURVE_Order • Q = 0 := by
  show ((BN254.CURVE_Order : Nat) : ZMod BN254.CURVE_Order) * Zr.val Q = 0
  rw [ZMod.natCast_self, zero_mul]

theorem BIG.FromBytes_toBytesBE (P : Params) (v : Nat) :
    BIG.FromBytes P (toBytesBE P.MODBYTES v) = v % 256 ^ P.MODBYTES := by
  have h := BIG.FromBytes_ToBytes P v []
  simpa [BIG.ToBytes] using h

theorem zmodCurve_roundtrip (A : Zr) :
    Zr.mk ((BIG.FromBytes BN254 (toBytesBE BN254.MODBYTES (ZMod.val (Zr.val A))) : Nat) :
      ZMod BN254.CURVE_Order) = A := by
  rw [BIG.FromBytes_toBytesBE, Nat.mod_eq_of_lt]
  · exact ZMod.natCast_zmod_val (Zr.val A)
  · exact lt_trans (ZMod.val_lt (Zr.val A))
      (lt_of_lt_of_le BN254.order_lt_modulus BN254.modulus_fits)

theorem zmodCurve_lawful : zmodCurve.Lawful BN254 where
  order_G1 := Zr_order
  order_G2 := Zr_order
  pair_add_left := by
    intro A B Q
    show Multiplicative.ofAdd ((Zr.val A + Zr.val B) * Zr.val Q)
      = Multiplicative.ofAdd (Zr.val A * Zr.val Q) * Multiplicative.ofAdd (Zr.val B * Zr.val Q)
    rw [← ofAdd_add, add_mul]
  pair_add_right := by
    intro A Q R
    show Multiplicative.ofAdd (Zr.val A * (Zr.val Q + Zr.val R))
      = Multiplicative.ofAdd (Zr.val A * Zr.val Q) * Multiplicative.ofAdd (Zr.val A * Zr.val R)
    rw [← ofAdd_add, mul_add]
  ECP_roundtrip := zmodCurve_roundtrip
  ECP2_roundtrip := zmodCurve_roundtrip

/-! ## Recovery -/

section RecoverLemmas

variable {G1 G2 GT : Type} [AddCommGroup G1]

/-- The loop of `Sign.Recover` ends with shares when `strconv.Atoi` accepts
every identity it visits. -/
theorem Sign.Recover.loop_ok (P : Params) (C : Curve G1 G2 GT) (shares : List (Sign G1))
    (from' : List ID) (N : Nat) (n i : Nat) (shs : List SHARE)
    (hok : ∀ j id, i ≤ j → j < i + n → from'[j]? = some id →
      ∃ v, Atoi P.IntSize (id.GetHexString P) = .ok v)
    (hlen : i + n ≤ from'.length) :
    ∃ shs', Sign.Recover.loop P C shares from' N n i shs = .ret (.ok shs') := by
  induction n generalizing i shs with
  | zero => exact ⟨shs, rfl⟩
  | succ n ih =>
    have hi : i < from'.length := by omega
    have hget : from'[i]? = some from'[i] := List.getElem?_eq_getElem hi
    obtain ⟨v, hv⟩ := hok i from'[i] (le_refl i) (by omega) hget
    simp only [Sign.Recover.loop, hget, hv]
    exact ih (i + 1) _ (fun j id h1 h2 h3 => hok j id (by omega) (by omega) h3) (by omega)

/-- The loop of `Sign.Recover` ends with an error of `strconv.Atoi` when it
rejects one of the identities the loop visits. -/
theorem Sign.Recover.loop_error (P : Params) (C : Curve G1 G2 GT) (shares : List (Sign G1))
    (from' : List ID) (N : Nat) (n i : Nat) (shs : List SHARE)
    (hbad : ∃ j id e, i ≤ j ∧ j < i + n ∧ from'[j]? = some id ∧
      Atoi P.IntSize (id.GetHexString P) = .error e)
    (hlen : i + n ≤ from'.length) :
    ∃ e, Sign.Recover.loop P C shares from' N n i shs = .ret (.error e) := by
  induction n generalizing i shs with
  | zero =>
    obtain ⟨j, _, _, h1, h2, _⟩ := hbad
    omega
  | succ n ih =>
    have hi : i < from'.length := by omega
    have hget : from'[i]? = some from'[i] := List.getElem?_eq_getElem hi
    cases hA : Atoi P.IntSize (from'[i].GetHexString P) with
    | error e => exact ⟨e, by simp only [Sign.Recover.loop, hget, hA]⟩
    | ok v =>
      simp only [Sign.Recover.loop, hget, hA]
      apply ih (i + 1) _ _ (by omega)
      obtain ⟨j, id, e, h1, h2, h3, h4⟩ := hbad
      refine ⟨j, id, e, ?_, by omega, h3, h4⟩
      by_contra hji
      have hj : j = i := by omega
      subst hj
      rw [hget] at h3
      cases h3
      rw [hA] at h4
      cases h4

/-- The two outcomes of `Sign.Recover` on a list `from` that is long enough. -/
theorem Sign.Recover_cases (P : Params) (C : Curve G1 G2 GT) (sig : Sign G1)
    (shares : List (Sign G1)) (from' : List ID) (hlen : shares.length ≤ from'.length) :
    ((∃ j id e, j < shares.length ∧ from'[j]? = some id ∧
        Atoi P.IntSize (id.GetHexString P) = .error e) →
      ∃ e, Sign.Recover P C sig shares from' = .ret (sig, some e)) ∧
    ((∀ j id, j < shares.length → from'[j]? = some id →
        ∃ v, Atoi P.IntSize (id.GetHexString P) = .ok v) →
      ∃ shs, Sign.Recover P C sig shares from'
        = .ret (⟨C.ECP_fromBytes (C.core_Recover shs)⟩, none)) := by
  constructor
  · rintro ⟨j, id, e, h1, h2, h3⟩
    obtain ⟨e', he'⟩ := Sign.Recover.loop_error P C shares from' shares.length shares.length 0 []
      ⟨j, id, e, Nat.zero_le _, by omega, h2, h3⟩ (by omega)
    exact ⟨e', by simp only [Sign.Recover, he']⟩
  · intro hok
    obtain ⟨shs, hs⟩ := Sign.Recover.loop_ok P C shares from' shares.length shares.length 0 []
      (fun j id _ h2 h3 => hok j id (by omega) h3) (by omega)
    exact ⟨shs, by simp only [Sign.Recover, hs]⟩

theorem Atoi_identity_ten :
    Atoi BN254.IntSize (ID.GetHexString BN254 ⟨⟨10⟩⟩)
      = .error (Error.ErrSyntax (ID.GetHexString BN254 ⟨⟨10⟩⟩)) := rfl

theorem Atoi_identity_one :
    Atoi BN254.IntSize (ID.GetHexString BN254 ⟨⟨1⟩⟩) = .ok 10000000000000000 := rfl

end RecoverLemmas

/-! ## Key generation -/

theorem FP_fromBytes_lt (P : Params) (b : List Nat) :
    (FP_fromBytes P b).GetBIG P < P.CURVE_Order := by
  have hr : 0 < P.CURVE_Order := Nat.zero_lt_of_lt P.order_gt_one
  show (BIG.FromBytes P b % P.CURVE_Order) % P.Modulus < P.CURVE_Order
  rw [Nat.mod_eq_of_lt (lt_trans (Nat.mod_lt _ hr) P.order_lt_modulus)]
  exact Nat.mod_lt _ hr

/-- Whatever `SecretKey.SetByCSPRNG` stores is a decoded block. -/
theorem SecretKey.SetByCSPRNG_ret (P : Params) (W W1 : RandState) (sk sk1 : SecretKey)
    (e : Option Error) (h : SecretKey.SetByCSPRNG P W sk = .ret (W1, sk1, e)) :
    e = none ∧ ∃ b : List Nat, sk1 = ⟨FP_fromBytes P b⟩ := by
  unfold SecretKey.SetByCSPRNG at h
  cases hrd : W.sRandReader with
  | none =>
    rw [hrd] at h
    simp only [Outcome.ret.injEq, Prod.mk.injEq] at h
    exact ⟨h.2.2.symm, _, h.2.1.symm⟩
  | some rd =>
    rw [hrd] at h
    simp only at h
    cases hfull : rd.ReadFull P.MODBYTES with
    | error err => rw [hfull] at h; cases h
    | ok res =>
      obtain ⟨b, rd1⟩ := res
      rw [hfull] at h
      simp only [Outcome.ret.injEq, Prod.mk.injEq] at h
      exact ⟨h.2.2.symm, _, h.2.1.symm⟩

/-- The entries that the loop of `GetMasterSecretKey` appends are canonical. -/
theorem SecretKey.GetMasterSecretKey.loop_canonical (P : Params) (n : Nat) (W W1 : RandState)
    (msk msk1 : List SecretKey) (hne : msk ≠ [])
    (hinv : ∀ i, 1 ≤ i → i < msk.length → (msk.getD i default).v.GetBIG P < P.CURVE_Order)
    (h : SecretKey.GetMasterSecretKey.loop P n W msk = .ret (W1, msk1)) :
    ∀ i, 1 ≤ i → i < msk1.length → (msk1.getD i default).v.GetBIG P < P.CURVE_Order := by
  induction n generalizing W msk with
  | zero =>
    simp only [SecretKey.GetMasterSecretKey.loop, Outcome.ret.injEq, Prod.mk.injEq] at h
    rw [← h.2]
    exact hinv
  | succ n ih =>
    rw [SecretKey.GetMasterSecretKey.loop] at h
    cases hs : SecretKey.SetByCSPRNG P W NewSecretKey with
    | panic msg => rw [hs] at h; cases h
    | ret res =>
      obtain ⟨W2, ski, e⟩ := res
      rw [hs] at h
      simp only at h
      obtain ⟨_, b, hb⟩ := SecretKey.SetByCSPRNG_ret P W W2 NewSecretKey ski e hs
      refine ih W2 (msk ++ [ski]) (by simp) ?_ h
      intro i h1 h2
      by_cases hi : i < msk.length
      · rw [List.getD_append _ _ _ _ hi]
        exact hinv i h1 hi
      · have hieq : i = msk.length := by
          simp only [List.length_append, List.length_singleton] at h2
          omega
        rw [hieq, List.getD_append_right _ _ _ _ (le_refl _)]
        simp only [Nat.sub_self, List.getD_cons_zero, hb]
        exact FP_fromBytes_lt P b

/-- With a block of `MODBYTES` bytes left in the configured reader,
`SecretKey.SetByCSPRNG` consumes the block and stores its decode. -/
theorem SecretKey.SetByCSPRNG_read (P : Params) (W : RandState) (sk : SecretKey) (rd : Reader)
    (hrd : W.sRandReader = some rd) (hlen : P.MODBYTES ≤ rd.data.length) :
    SecretKey.SetByCSPRNG P W sk
      = .ret ({ W with sRandReader := some { rd with data := rd.data.drop P.MODBYTES } },
          ⟨FP_fromBytes P (rd.data.take P.MODBYTES)⟩, none) := by
  simp only [SecretKey.SetByCSPRNG, hrd, Reader.ReadFull, if_pos hlen]

/-- With fewer than `MODBYTES` bytes left in the configured reader,
`SecretKey.SetByCSPRNG` panics. -/
theorem SecretKey.SetByCSPRNG_short (P : Params) (W : RandState) (sk : SecretKey) (rd : Reader)
    (hrd : W.sRandReader = some rd) (hlen : rd.data.length < P.MODBYTES) :
    SecretKey.SetByCSPRNG P W sk
      = .panic "Couldn't read from sRandReader. Got an error (printed out on previous lines." := by
  simp only [SecretKey.SetByCSPRNG, hrd, Reader.ReadFull, if_neg (not_le.mpr hlen)]
  cases rd.fault <;> rfl

/-- The loop of `GetMasterSecretKey` on a reader that holds `n` blocks: it
appends the decodes of the blocks in order and leaves the rest of the stream. -/
theorem SecretKey.GetMasterSecretKey.loop_blocks (P : Params) (n : Nat) (W : RandState)
    (rd : Reader) (msk : List SecretKey) (hrd : W.sRandReader = some rd)
    (hlen : n * P.MODBYTES ≤ rd.data.length) :
    SecretKey.GetMasterSecretKey.loop P n W msk
      = .ret ({ W with sRandReader := some { rd with data := rd.data.drop (n * P.MODBYTES) } },
          msk ++ (List.range n).map (fun j =>
            (⟨FP_fromBytes P ((rd.data.drop (j * P.MODBYTES)).take P.MODBYTES)⟩ : SecretKey))) := by
  induction n generalizing W rd msk with
  | zero =>
    obtain ⟨r0, f, d⟩ := W
    simp only at hrd
    subst hrd
    simp [SecretKey.GetMasterSecretKey.loop]
  | succ n ih =>
    have hM : P.MODBYTES ≤ rd.data.length := by
      have : (n + 1) * P.MODBYTES = n * P.MODBYTES + P.MODBYTES := by ring
      omega
    rw [SecretKey.GetMasterSecretKey.loop, SecretKey.SetByCSPRNG_read P W NewSecretKey rd hrd hM]
    simp only
    rw [ih _ { rd with data := rd.data.drop P.MODBYTES } _ rfl (by
      have : (n + 1) * P.MODBYTES = n * P.MODBYTES + P.MODBYTES := by ring
      simp only [List.length_drop]
      omega)]
    have hdrop : ∀ j, (rd.data.drop P.MODBYTES).drop (j * P.MODBYTES)
        = rd.data.drop ((j + 1) * P.MODBYTES) := by
      intro j
      rw [List.drop_drop]
      congr 1
      ring
    simp only [hdrop, List.range_succ_eq_map, List.map_cons, List.map_map, zero_mul,
      List.drop_zero, List.append_assoc, List.singleton_append]
    rfl

/-! ## Hex strings -/

theorem fromHexChar_hextable (n : Nat) (h : n < 16) :
    fromHexChar (hextable.getD n '0') = some n := by
  interval_cases n <;> rfl

theorem EncodeToString_cons (v : Nat) (b : List Nat) :
    EncodeToString (v :: b)
      = hextable.getD (v % 256 / 16) '0' :: hextable.getD (v % 16) '0' :: EncodeToString b := by
  simp [EncodeToString]

theorem EncodeToString_length (b : List Nat) : (EncodeToString b).length = 2 * b.length := by
  induction b with
  | nil => rfl
  | cons v b ih => rw [EncodeToString_cons, List.length_cons, List.length_cons, ih,
      List.length_cons]; ring

theorem EncodeToString_append (a b : List Nat) :
    EncodeToString (a ++ b) = EncodeToString a ++ EncodeToString b := by
  simp [EncodeToString]

/-- Decoding undoes encoding, byte by byte. -/
theorem DecodeString_EncodeToString (b : List Nat) :
    DecodeString (EncodeToString b) = (b.map (fun v => v % 256), none) := by
  induction b with
  | nil => rfl
  | cons v b ih =>
    rw [EncodeToString_cons, DecodeString,
      fromHexChar_hextable _ (by omega), fromHexChar_hextable _ (by omega)]
    simp only [ih, List.map_cons]
    congr 2
    omega

theorem hex2byte_odd (s : List Char) (h : s.length % 2 = 1) :
    hex2byte s = ([], some (Error.New "odd length")) := by
  unfold hex2byte
  rw [Nat.and_one_is_mod, if_pos h]

theorem hex2byte_even (s : List Char) (h : s.length % 2 = 0) :
    hex2byte s = DecodeString s := by
  unfold hex2byte
  rw [Nat.and_one_is_mod, if_neg (by omega)]

theorem hex2byte_EncodeToString (b : List Nat) :
    hex2byte (EncodeToString b) = (b.map (fun v => v % 256), none) := by
  rw [hex2byte_even _ (by rw [EncodeToString_length]; omega), DecodeString_EncodeToString]

theorem map_mod_of_lt (b : List Nat) (h : ∀ x ∈ b, x < 256) :
    b.map (fun v => v % 256) = b := by
  induction b with
  | nil => rfl
  | cons v b ih =>
    rw [List.map_cons, Nat.mod_eq_of_lt (h v (List.mem_cons_self _ _)),
      ih (fun x hx => h x (List.mem_cons_of_mem _ hx))]

theorem toBytesBE_lt (n v : Nat) : ∀ x ∈ toBytesBE n v, x < 256 := by
  induction n generalizing v with
  | zero => simp [toBytesBE]
  | succ n ih =>
    intro x hx
    simp only [toBytesBE, List.mem_append, List.mem_singleton] at hx
    rcases hx with hx | hx
    · exact ih _ x hx
    · rw [hx]
      exact Nat.mod_lt _ (by norm_num)

/-- On a string of even length `hex.DecodeString` fails exactly when one of
the characters is no hex digit. -/
theorem DecodeString_error_iff (n : Nat) (s : List Char) (h : s.length = 2 * n) :
    (DecodeString s).2 ≠ none ↔ ∃ c ∈ s, fromHexChar c = none := by
  induction n generalizing s with
  | zero =>
    have : s = [] := List.length_eq_zero.mp (by omega)
    subst this
    simp [DecodeString]
  | succ n ih =>
    match s, h with
    | p :: q :: rest, h =>
      have hrest : rest.length = 2 * n := by
        simp only [List.length_cons] at h
        omega
      rw [DecodeString]
      cases hp : fromHexChar p with
      | none => simp [hp]
      | some a =>
        cases hq : fromHexChar q with
        | none => simp [hq]
        | some b =>
          simp only [List.mem_cons, exists_eq_or_imp, hp, hq, reduceCtorEq, false_or]
          exact ih rest hrest

/-- The strings that `hex2byte` refuses: those of odd length and those with a
character that is no hex digit. -/
theorem hex2byte_error_iff (s : List Char) :
    (hex2byte s).2 ≠ none ↔ (s.length % 2 = 1 ∨ ∃ c ∈ s, fromHexChar c = none) := by
  rcases Nat.mod_two_eq_zero_or_one s.length with h | h
  · rw [hex2byte_even s h, DecodeString_error_iff (s.length / 2) s (by omega)]
    constructor
    · intro hc
      exact Or.inr hc
    · rintro (h1 | hc)
      · omega
      · exact hc
  · rw [hex2byte_odd s h]
    simp [h]

theorem FP_fromBytes_take (P : Params) (b extra : List Nat) (h : b.length = P.MODBYTES) :
    FP_fromBytes P (b ++ extra) = FP_fromBytes P b := by
  unfold FP_fromBytes BIG.FromBytes
  rw [List.take_append_of_le_length (by omega), List.take_of_length_le (by omega)]

/-! ## The claims -/

section Claims

/-- Claim C1 as stated, refuted. On the single coefficient `a_0 = r` (a key
below `Modulus`, the one that `SecretKey.Add` leaves for `r - 1` and `1`) and
the identity 3, `SecretKey.Set` returns `nil` and the receiver holds r itself,
while `(a_0 * x^0) mod r` is 0. -/
theorem C1_counterexample :
    (SecretKey.Set BN254 NewSecretKey [⟨⟨BN254.CURVE_Order⟩⟩] ⟨⟨3⟩⟩).2 = none ∧
    (SecretKey.Set BN254 NewSecretKey [⟨⟨BN254.CURVE_Order⟩⟩] ⟨⟨3⟩⟩).1.v.GetBIG BN254
      = BN254.CURVE_Order ∧
    (∑ i ∈ Finset.range ([⟨⟨BN254.CURVE_Order⟩⟩] : List SecretKey).length,
        (([⟨⟨BN254.CURVE_Order⟩⟩] : List SecretKey).getD i default).v.GetBIG BN254
          * (⟨⟨3⟩⟩ : ID).v.GetBIG BN254 ^ i) % BN254.CURVE_Order = 0 ∧
    BN254.CURVE_Order ≠ 0 ∧
    ((⟨⟨BN254.CURVE_Order - 1⟩⟩ : SecretKey).Add BN254 ⟨⟨1⟩⟩).IsEqual BN254
      ⟨⟨BN254.CURVE_Order⟩⟩ = true := by
  refine ⟨rfl, rfl, ?_, by decide, by decide⟩
  rw [List.length_singleton, Finset.sum_range_one]
  decide

/-- Claim C1, amended. For a non-empty coefficient list `msk` and every
identity, `SecretKey.Set` returns `nil` and leaves the receiver holding the
value of the Horner recurrence of spec §4.2, every step of it modulo
`CURVE_Order`.  For two or more coefficients, and for a single coefficient
below r, that value is the polynomial `a_0 + a_1 x + ... ` reduced modulo
`CURVE_Order`; a single coefficient is copied as it is. -/
theorem C1_SecretKey_Set_is_Horner_mod_order (P : Params) (sk : SecretKey)
    (msk : List SecretKey) (id : ID) (hne : msk ≠ []) :
    (SecretKey.Set P sk msk id).2 = none ∧
    scalarShare P.CURVE_Order (id.v.GetBIG P) (msk.map (fun a => a.v.GetBIG P))
      = some ((SecretKey.Set P sk msk id).1.v.GetBIG P) ∧
    ((2 ≤ msk.length ∨ (msk.getD 0 default).v.GetBIG P < P.CURVE_Order) →
      (SecretKey.Set P sk msk id).1.v.GetBIG P
        = (∑ i ∈ Finset.range msk.length,
            (msk.getD i default).v.GetBIG P * id.v.GetBIG P ^ i) % P.CURVE_Order) ∧
    (∀ a, msk = [a] → (SecretKey.Set P sk msk id).1.v.GetBIG P = a.v.GetBIG P) := by
  match msk, hne with
  | [a], _ =>
    refine ⟨rfl, rfl, ?_, ?_⟩
    · intro h
      have ha : a.v.GetBIG P < P.CURVE_Order := by
        rcases h with h | h
        · simp at h
        · exact h
      show a.v.GetBIG P = _
      simp [Nat.mod_eq_of_lt ha]
    · intro a' h
      cases h
      rfl
  | a :: b :: rest, _ =>
    have hr : 0 < P.CURVE_Order := Nat.zero_lt_of_lt P.order_gt_one
    rw [SecretKey.Set_cons_cons]
    have hp : (∑ i ∈ Finset.range (a :: b :: rest).length,
          ((a :: b :: rest).getD i default).v.GetBIG P * id.v.GetBIG P ^ i) % P.CURVE_Order
        < P.Modulus := lt_trans (Nat.mod_lt _ hr) P.order_lt_modulus
    refine ⟨rfl, ?_, ?_, ?_⟩
    · show _ = some ((_ % P.CURVE_Order) % P.Modulus)
      rw [Nat.mod_eq_of_lt hp, ← sum_map_GetBIG]
      exact scalarShare_cons_cons _ _ _ _ _
    · intro _
      show (_ % P.CURVE_Order) % P.Modulus = _
      exact Nat.mod_eq_of_lt hp
    · intro a' h
      simp at h

theorem C1_witness :
    ([⟨⟨5⟩⟩, ⟨⟨7⟩⟩, ⟨⟨11⟩⟩] : List SecretKey) ≠ [] ∧
    (SecretKey.Set BN254 NewSecretKey [⟨⟨5⟩⟩, ⟨⟨7⟩⟩, ⟨⟨11⟩⟩] ⟨⟨3⟩⟩).2 = none ∧
    scalarShare BN254.CURVE_Order ((⟨⟨3⟩⟩ : ID).v.GetBIG BN254)
        (([⟨⟨5⟩⟩, ⟨⟨7⟩⟩, ⟨⟨11⟩⟩] : List SecretKey).map (fun a => a.v.GetBIG BN254))
      = some ((SecretKey.Set BN254 NewSecretKey [⟨⟨5⟩⟩, ⟨⟨7⟩⟩, ⟨⟨11⟩⟩] ⟨⟨3⟩⟩).1.v.GetBIG BN254) ∧
    (SecretKey.Set BN254 NewSecretKey [⟨⟨5⟩⟩, ⟨⟨7⟩⟩, ⟨⟨11⟩⟩] ⟨⟨3⟩⟩).1.v.GetBIG BN254
      = (∑ i ∈ Finset.range 3,
          (([⟨⟨5⟩⟩, ⟨⟨7⟩⟩, ⟨⟨11⟩⟩] : List SecretKey).getD i default).v.GetBIG BN254
            * (⟨⟨3⟩⟩ : ID).v.GetBIG BN254 ^ i) % BN254.CURVE_Order :=
  have h := C1_SecretKey_Set_is_Horner_mod_order BN254 NewSecretKey
    [⟨⟨5⟩⟩, ⟨⟨7⟩⟩, ⟨⟨11⟩⟩] ⟨⟨3⟩⟩ (by simp)
  ⟨by simp, h.1, h.2.1, h.2.2.1 (Or.inl (by decide))⟩

/-- Claim C2. For a non-empty coefficient list `msk` and every identity, the
commitment evaluation `PublicKey.Set(GetMasterPublicKey(msk), id)` and the
public key of the share `SecretKey.Set(msk, id)` both succeed and are
`IsEqual`, over any primitives with G2 of order r. -/
theorem C2_commitment_eval_equals_public_key_of_share {G1 G2 GT : Type} [AddCommGroup G1]
    [AddCommGroup G2] [CommGroup GT] [DecidableEq G2] (P : Params) (C : Curve G1 G2 GT)
    (hL : C.Lawful P) (sk : SecretKey) (pk : PublicKey G2) (msk : List SecretKey) (id : ID)
    (hne : msk ≠ []) :
    (PublicKey.Set P pk (GetMasterPublicKey P C msk) id).2 = none ∧
    (SecretKey.Set P sk msk id).2 = none ∧
    (PublicKey.Set P pk (GetMasterPublicKey P C msk) id).1.IsEqual
      (SecretKey.GetPublicKey P C (SecretKey.Set P sk msk id).1) = true := by
  refine ⟨?_, ?_, ?_⟩
  · rw [PublicKey.Set_GetMasterPublicKey P C hL pk msk id hne]
  · match msk, hne with
    | [a], _ => rfl
    | a :: b :: rest, _ => rw [SecretKey.Set_cons_cons]
  · unfold PublicKey.IsEqual
    rw [decide_eq_true_eq, PublicKey.Set_GetMasterPublicKey P C hL pk msk id hne,
      SecretKey.GetPublicKey_v P C hL,
      SecretKey.Set_GetBIG_nsmul P sk msk id hne _ (hL.order_G2 _)]

theorem C2_witness :
    zmodCurve.Lawful BN254 ∧
    ([(⟨⟨5⟩⟩ : SecretKey), ⟨⟨7⟩⟩, ⟨⟨11⟩⟩] ≠ []) ∧
    (PublicKey.Set BN254 (⟨0⟩ : PublicKey Zr)
        (GetMasterPublicKey BN254 zmodCurve [⟨⟨5⟩⟩, ⟨⟨7⟩⟩, ⟨⟨11⟩⟩]) ⟨⟨3⟩⟩).1.IsEqual
      (SecretKey.GetPublicKey BN254 zmodCurve
        (SecretKey.Set BN254 NewSecretKey [⟨⟨5⟩⟩, ⟨⟨7⟩⟩, ⟨⟨11⟩⟩] ⟨⟨3⟩⟩).1) = true :=
  ⟨zmodCurve_lawful, by simp,
    (C2_commitment_eval_equals_public_key_of_share BN254 zmodCurve zmodCurve_lawful
      NewSecretKey (⟨0⟩ : PublicKey Zr) [⟨⟨5⟩⟩, ⟨⟨7⟩⟩, ⟨⟨11⟩⟩] ⟨⟨3⟩⟩ (by simp)).2.2⟩

/-- Claim C3. For a non-empty list `pks` of points of G2 (a group of order r) and
every identity x, `PublicKey.Set` returns `nil` and leaves the receiver equal
to the sum of the multiples `(x^i mod r) • P_i`, which is the value of the
exponent-domain Horner recurrence of spec §4.3 with `G2mul` as scalar
multiplication. -/
theorem C3_PublicKey_Set_is_commitment_polynomial {G2 : Type} [AddCommGroup G2] (P : Params)
    (hord : ∀ Q : G2, P.CURVE_Order • Q = 0)
    (pk : PublicKey G2) (pks : List (PublicKey G2)) (id : ID) (hne : pks ≠ []) :
    (PublicKey.Set P pk pks id).2 = none ∧
    (PublicKey.Set P pk pks id).1.v
      = ∑ i ∈ Finset.range pks.length,
          (id.v.GetBIG P ^ i % P.CURVE_Order) • (pks.getD i ⟨NewECP2⟩).v ∧
    commitmentEval P (id.v.GetBIG P) (pks.map (fun pk => pk.v))
      = some (PublicKey.Set P pk pks id).1.v := by
  rw [PublicKey.Set_eq_sum P pk pks id hne]
  refine ⟨rfl, ?_, ?_⟩
  · show (∑ i ∈ Finset.range pks.length, _) = _
    apply Finset.sum_congr rfl
    intro i _
    rw [mod_order_nsmul _ _ _ (hord _)]
    exact nsmul_congr_of_modEq P.CURVE_Order _ _ _ (hord _)
      ((Nat.mod_modEq _ _).pow i)
  · match pks, hne with
    | A :: l, _ =>
      rw [List.map_cons, commitmentEval_eq_sum, ← List.map_cons, sum_map_v]

theorem C3_witness :
    (∀ Q : Zr, BN254.CURVE_Order • Q = 0) ∧
    ([(⟨Zr.mk 2⟩ : PublicKey Zr), ⟨Zr.mk 3⟩] ≠ []) ∧
    (PublicKey.Set BN254 (⟨0⟩ : PublicKey Zr) [⟨Zr.mk 2⟩, ⟨Zr.mk 3⟩] ⟨⟨5⟩⟩).2 = none ∧
    commitmentEval BN254 ((⟨⟨5⟩⟩ : ID).v.GetBIG BN254)
        ([(⟨Zr.mk 2⟩ : PublicKey Zr), ⟨Zr.mk 3⟩].map (fun pk => pk.v))
      = some (PublicKey.Set BN254 (⟨0⟩ : PublicKey Zr) [⟨Zr.mk 2⟩, ⟨Zr.mk 3⟩] ⟨⟨5⟩⟩).1.v :=
  have h := C3_PublicKey_Set_is_commitment_polynomial BN254 Zr_order
    (⟨0⟩ : PublicKey Zr) [⟨Zr.mk 2⟩, ⟨Zr.mk 3⟩] ⟨⟨5⟩⟩ (by simp)
  ⟨Zr_order, by simp, h.1, h.2.2⟩

/-- Claim C4. The input on which `Sign.Recover` misses the claim: the shares of
any polynomial `msk` at the two distinct identities 10 and 11 sign a message,
and `Recover` on these two partial signatures does not return `nil`: the hex
string of identity 10 holds the letter `a`, `strconv.Atoi` rejects it, and
`Recover` returns that error with the receiver as it was. -/
theorem C4_Recover_rejects_identity_ten {G1 G2 GT : Type} [AddCommGroup G1]
    (C : Curve G1 G2 GT) (sig : Sign G1)
    (sk : SecretKey) (msk : List SecretKey) (m : List Nat) :
    (⟨⟨10⟩⟩ : ID).v.GetBIG BN254 ≠ (⟨⟨11⟩⟩ : ID).v.GetBIG BN254 ∧
    Sign.Recover BN254 C sig
        [SecretKey.Sign BN254 C (SecretKey.Set BN254 sk msk ⟨⟨10⟩⟩).1 m,
          SecretKey.Sign BN254 C (SecretKey.Set BN254 sk msk ⟨⟨11⟩⟩).1 m]
        [⟨⟨10⟩⟩, ⟨⟨11⟩⟩]
      = .ret (sig, some (Error.ErrSyntax (ID.GetHexString BN254 ⟨⟨10⟩⟩))) := by
  refine ⟨by decide, ?_⟩
  simp only [Sign.Recover, List.length_cons, List.length_nil, Sign.Recover.loop,
    List.getElem?_cons_zero, Atoi_identity_ten]

/-- Claim C5. For every secret key and every message, the signature `sk.Sign(m)`
verifies against `sk.GetPublicKey()`: with `Sign` the hashed message scaled by
the key, `GetPublicKey` the G2 generator scaled by the key and `Verify` the
pairing equation, over any bilinear pairing. -/
theorem C5_sign_then_verify {G1 G2 GT : Type} [AddCommGroup G1] [AddCommGroup G2]
    [CommGroup GT] [DecidableEq GT] (P : Params) (C : Curve G1 G2 GT)
    (hL : C.Lawful P) (sk : SecretKey) (m : List Nat) :
    (SecretKey.Sign P C sk m).v = G1mul P (C.bls_hash_to_point m) (sk.v.GetBIG P) ∧
    (SecretKey.GetPublicKey P C sk).v = G2mul P C.ECP2_generator (sk.v.GetBIG P) ∧
    (SecretKey.Sign P C sk m).Verify C (SecretKey.GetPublicKey P C sk) m = true := by
  refine ⟨SecretKey.Sign_v P C hL sk m, SecretKey.GetPublicKey_v P C hL sk, ?_⟩
  unfold Sign.Verify Core_Verify ToBytes ToBytes2
  rw [hL.ECP_roundtrip, hL.ECP2_roundtrip, SecretKey.Sign_v P C hL,
    SecretKey.GetPublicKey_v P C hL, hL.pair_nsmul_left, hL.pair_nsmul_right]
  simp

theorem C5_witness :
    zmodCurve.Lawful BN254 ∧
    (SecretKey.Sign BN254 zmodCurve ⟨⟨12345⟩⟩ [104, 101, 108, 108, 111]).Verify zmodCurve
      (SecretKey.GetPublicKey BN254 zmodCurve ⟨⟨12345⟩⟩) [104, 101, 108, 108, 111] = true :=
  ⟨zmodCurve_lawful,
    (C5_sign_then_verify BN254 zmodCurve zmodCurve_lawful ⟨⟨12345⟩⟩
      [104, 101, 108, 108, 111]).2.2⟩

/-- Claim C6. `SecretKey.Set` returns a non-nil error exactly when the list
`msk` is empty, and `PublicKey.Set` exactly when the list `pks` is empty; on
every non-empty list and every identity they return `nil`. -/
theorem C6_Set_error_iff_empty {G2 : Type} [AddCommGroup G2] (P : Params) (sk : SecretKey)
    (msk : List SecretKey)
    (pk : PublicKey G2) (pks : List (PublicKey G2)) (id : ID) :
    ((SecretKey.Set P sk msk id).2 ≠ none ↔ msk = []) ∧
    ((PublicKey.Set P pk pks id).2 ≠ none ↔ pks = []) := by
  constructor
  · match msk with
    | [] => simp [SecretKey.Set]
    | [a] => simp [SecretKey.Set]
    | a :: b :: rest => rw [SecretKey.Set_cons_cons]; simp
  · by_cases h : pks = []
    · subst h
      simp [PublicKey.Set]
    · rw [PublicKey.Set_eq_sum P pk pks id h]
      simp [h]

/-- Claim C7. On a list of one coefficient `SecretKey.Set` returns `nil` and
leaves the receiver `IsEqual` to that coefficient, and on a list of one point
`PublicKey.Set` returns `nil` and leaves the receiver `IsEqual` to that point;
the receivers after the call are the same for any two identities. -/
theorem C7_single_coefficient_is_unshared {G2 : Type} [AddCommGroup G2] [DecidableEq G2]
    (P : Params) (sk a0 : SecretKey)
    (pk P0 : PublicKey G2) (id id' : ID) :
    (SecretKey.Set P sk [a0] id).2 = none ∧
    (SecretKey.Set P sk [a0] id).1.IsEqual P a0 = true ∧
    SecretKey.Set P sk [a0] id = SecretKey.Set P sk [a0] id' ∧
    (PublicKey.Set P pk [P0] id).2 = none ∧
    (PublicKey.Set P pk [P0] id).1.IsEqual P0 = true ∧
    PublicKey.Set P pk [P0] id = PublicKey.Set P pk [P0] id' := by
  refine ⟨rfl, ?_, rfl, rfl, ?_, rfl⟩
  · simp [SecretKey.Set, SecretKey.IsEqual, FP.Equals, SecretKey.CloneFP, NewFPcopy]
  · simp [PublicKey.Set, PublicKey.IsEqual]

/-- Claim C8 as stated, refuted. Two partial signatures handed to
`Sign.Recover` with the identity 1 twice: `Recover` returns `nil`. -/
theorem C8_counterexample :
    ([(⟨⟨1⟩⟩ : ID), ⟨⟨1⟩⟩][0]? = [(⟨⟨1⟩⟩ : ID), ⟨⟨1⟩⟩][1]?) ∧
    ∃ s, Sign.Recover BN254 zmodCurve (⟨0⟩ : Sign Zr) [⟨Zr.mk 1⟩, ⟨Zr.mk 2⟩] [⟨⟨1⟩⟩, ⟨⟨1⟩⟩]
      = .ret (s, none) :=
  ⟨rfl, _, rfl⟩

/-- Claim C8, amended. `Sign.Recover` does not look for repeated identities.
On shares and a list `from` at least as long, it returns a non-nil error, with
the receiver as it was, when `strconv.Atoi` rejects the hex string of one of
the first `len(shares)` identities; when `strconv.Atoi` accepts all of them,
repeated or not, it returns `nil` and the receiver is the point decoded from
the output of `core.Recover`. -/
theorem C8_Recover_errors_only_from_Atoi {G1 G2 GT : Type} [AddCommGroup G1] (P : Params)
    (C : Curve G1 G2 GT) (sig : Sign G1)
    (shares : List (Sign G1)) (from' : List ID) (hlen : shares.length ≤ from'.length) :
    ((∃ j id e, j < shares.length ∧ from'[j]? = some id ∧
        Atoi P.IntSize (id.GetHexString P) = .error e) →
      ∃ e, Sign.Recover P C sig shares from' = .ret (sig, some e)) ∧
    ((∀ j id, j < shares.length → from'[j]? = some id →
        ∃ v, Atoi P.IntSize (id.GetHexString P) = .ok v) →
      ∃ shs, Sign.Recover P C sig shares from'
        = .ret (⟨C.ECP_fromBytes (C.core_Recover shs)⟩, none)) :=
  Sign.Recover_cases P C sig shares from' hlen

theorem C8_witness :
    ([(⟨Zr.mk 1⟩ : Sign Zr), ⟨Zr.mk 2⟩].length ≤ [(⟨⟨1⟩⟩ : ID), ⟨⟨1⟩⟩].length) ∧
    ∃ shs, Sign.Recover BN254 zmodCurve (⟨0⟩ : Sign Zr) [⟨Zr.mk 1⟩, ⟨Zr.mk 2⟩] [⟨⟨1⟩⟩, ⟨⟨1⟩⟩]
      = .ret (⟨zmodCurve.ECP_fromBytes (zmodCurve.core_Recover shs)⟩, none) :=
  ⟨by decide,
    (C8_Recover_errors_only_from_Atoi BN254 zmodCurve (⟨0⟩ : Sign Zr) [⟨Zr.mk 1⟩, ⟨Zr.mk 2⟩]
      [⟨⟨1⟩⟩, ⟨⟨1⟩⟩] (by decide)).2 (by
        intro j id hj hid
        have hj2 : j = 0 ∨ j = 1 := by
          simp only [List.length_cons, List.length_nil] at hj
          omega
        rcases hj2 with rfl | rfl
        · simp only [List.getElem?_cons_zero, Option.some.injEq] at hid
          subst hid
          exact ⟨_, Atoi_identity_one⟩
        · simp only [List.getElem?_cons_succ, List.getElem?_cons_zero, Option.some.injEq] at hid
          subst hid
          exact ⟨_, Atoi_identity_one⟩)⟩

/-- Claim C9. Whatever `SecretKey.SetByCSPRNG` stores has its integer value in
`[0, r)`: on every return; on a configured reader that still holds a block of
`MODBYTES` bytes, where it returns the decode of that block; and for every
entry `msk[i]`, `1 ≤ i`, of a list returned by `GetMasterSecretKey`. -/
theorem C9_SetByCSPRNG_scalar_below_order (P : Params) (W : RandState) (sk : SecretKey) :
    (∀ W1 sk1 e, SecretKey.SetByCSPRNG P W sk = .ret (W1, sk1, e) →
      sk1.v.GetBIG P < P.CURVE_Order) ∧
    (∀ (b rest : List Nat) (fault : Option Error), b.length = P.MODBYTES →
      (∃ W1, SecretKey.SetByCSPRNG P { W with sRandReader := some ⟨b ++ rest, fault⟩ } sk
        = .ret (W1, ⟨FP_fromBytes P b⟩, none)) ∧
      (FP_fromBytes P b).GetBIG P < P.CURVE_Order) ∧
    (∀ k W1 msk i, SecretKey.GetMasterSecretKey P W sk k = .ret (W1, msk) →
      1 ≤ i → i < msk.length → (msk.getD i default).v.GetBIG P < P.CURVE_Order) := by
  refine ⟨?_, ?_, ?_⟩
  · intro W1 sk1 e h
    obtain ⟨_, b, hb⟩ := SecretKey.SetByCSPRNG_ret P W W1 sk sk1 e h
    rw [hb]
    exact FP_fromBytes_lt P b
  · intro b rest fault hb
    refine ⟨⟨{ W with sRandReader := some ⟨rest, fault⟩ }, ?_⟩, FP_fromBytes_lt P b⟩
    simp only [SecretKey.SetByCSPRNG, Reader.ReadFull, List.length_append, ← hb,
      Nat.le_add_right, if_true, List.take_left', List.drop_left']
  · intro k W1 msk i h h1 h2
    unfold SecretKey.GetMasterSecretKey at h
    split at h
    · cases h
    · split at h
      · cases h
      · exact SecretKey.GetMasterSecretKey.loop_canonical P _ W W1 [sk] msk (by simp)
          (by intro i h1 h2; simp only [List.length_singleton] at h2; omega) h i h1 h2

/-- Claim C10. What `SecretKey.Add` and `SecretKey.SubFP` compute: the sum and
the difference modulo `Modulus`, not modulo the order r.  For the keys
`a = r - 1` and `b = 1` the value after `a.Add(b)` is r, not
`(a + b) mod r = 0`; for the key 0 the value after `SubFP(1)` is
`Modulus - 1`, not `(0 - 1) mod r = r - 1`. -/
theorem C10_Add_SubFP_reduce_modulo_Modulus (P : Params) :
    (∀ a b : SecretKey,
      (a.Add P b).v.GetBIG P = (a.v.GetBIG P + b.v.GetBIG P) % P.Modulus) ∧
    (∀ (a : SecretKey) (c : FP),
      (a.SubFP P c).v.GetBIG P = (a.v.GetBIG P + (P.Modulus - c.GetBIG P)) % P.Modulus) ∧
    (((⟨⟨P.CURVE_Order - 1⟩⟩ : SecretKey).Add P ⟨⟨1⟩⟩).v.GetBIG P = P.CURVE_Order ∧
      ((⟨⟨P.CURVE_Order - 1⟩⟩ : SecretKey).v.GetBIG P + (⟨⟨1⟩⟩ : SecretKey).v.GetBIG P)
        % P.CURVE_Order = 0) ∧
    (((⟨⟨0⟩⟩ : SecretKey).SubFP P ⟨1⟩).v.GetBIG P = P.Modulus - 1 ∧
      P.Modulus - 1 ≠ P.CURVE_Order - 1) := by
  have hr := P.order_gt_one
  have hp := P.order_lt_modulus
  have hval : (⟨⟨P.CURVE_Order - 1⟩⟩ : SecretKey).v.GetBIG P = P.CURVE_Order - 1 := by
    show (P.CURVE_Order - 1) % P.Modulus = _
    exact Nat.mod_eq_of_lt (by omega)
  have hone : (⟨⟨1⟩⟩ : SecretKey).v.GetBIG P = 1 := by
    show 1 % P.Modulus = 1
    exact Nat.mod_eq_of_lt (by omega)
  refine ⟨?_, ?_, ⟨?_, ?_⟩, ⟨?_, by omega⟩⟩
  · intro a b
    exact Nat.mod_mod _ _
  · intro a c
    exact Nat.mod_mod _ _
  · show ((FP.GetBIG P ⟨P.CURVE_Order - 1⟩ + FP.GetBIG P ⟨1⟩) % P.Modulus) % P.Modulus = _
    have h1 : FP.GetBIG P ⟨P.CURVE_Order - 1⟩ = P.CURVE_Order - 1 := hval
    have h2 : FP.GetBIG P ⟨1⟩ = 1 := hone
    rw [h1, h2, Nat.mod_mod, Nat.sub_add_cancel (by omega), Nat.mod_eq_of_lt hp]
  · rw [hval, hone, Nat.sub_add_cancel (by omega), Nat.mod_self]
  · show ((0 % P.Modulus + (P.Modulus - 1 % P.Modulus)) % P.Modulus) % P.Modulus = _
    rw [Nat.mod_mod, Nat.zero_mod, Nat.zero_add, Nat.mod_eq_of_lt (show 1 < P.Modulus by omega),
      Nat.mod_eq_of_lt (by omega)]

/-- Claim C11. Plain `Add` aggregates independent signatures: for all secret
keys `s1`, `s2` and every message `m`, the sum of `s1.Sign(m)` and
`s2.Sign(m)` verifies against the sum of `s1.GetPublicKey()` and
`s2.GetPublicKey()`, over any bilinear pairing whose encodings round-trip. -/
theorem C11_Add_aggregates_signatures {G1 G2 GT : Type} [AddCommGroup G1] [AddCommGroup G2]
    [CommGroup GT] [DecidableEq GT] (P : Params) (C : Curve G1 G2 GT)
    (hL : C.Lawful P) (s1 s2 : SecretKey) (m : List Nat) :
    ((SecretKey.Sign P C s1 m).Add (SecretKey.Sign P C s2 m)).Verify C
      ((SecretKey.GetPublicKey P C s1).Add (SecretKey.GetPublicKey P C s2)) m = true := by
  unfold Sign.Verify Core_Verify ToBytes ToBytes2 Sign.Add PublicKey.Add
  rw [hL.ECP_roundtrip, hL.ECP2_roundtrip, SecretKey.Sign_v P C hL, SecretKey.Sign_v P C hL,
    SecretKey.GetPublicKey_v P C hL, SecretKey.GetPublicKey_v P C hL, hL.pair_add_left,
    hL.pair_add_right, hL.pair_nsmul_left, hL.pair_nsmul_left, hL.pair_nsmul_right,
    hL.pair_nsmul_right]
  simp

theorem C11_witness :
    zmodCurve.Lawful BN254 ∧
    ((SecretKey.Sign BN254 zmodCurve ⟨⟨12345⟩⟩ [104, 105]).Add
        (SecretKey.Sign BN254 zmodCurve ⟨⟨678⟩⟩ [104, 105])).Verify zmodCurve
      ((SecretKey.GetPublicKey BN254 zmodCurve ⟨⟨12345⟩⟩).Add
        (SecretKey.GetPublicKey BN254 zmodCurve ⟨⟨678⟩⟩)) [104, 105] = true :=
  ⟨zmodCurve_lawful,
    C11_Add_aggregates_signatures BN254 zmodCurve zmodCurve_lawful ⟨⟨12345⟩⟩ ⟨⟨678⟩⟩ [104, 105]⟩

/-- Claim C12 as stated, refuted. The secret key with value r, below
`Modulus` (it is what `SecretKey.Add` leaves for `r - 1` and `1`):
`DeserializeHexStr` on its `SerializeToHexStr()` returns `nil` and yields the
key 0, which is not `IsEqual` to it. -/
theorem C12_counterexample :
    ((⟨⟨BN254.CURVE_Order - 1⟩⟩ : SecretKey).Add BN254 ⟨⟨1⟩⟩).IsEqual BN254
      ⟨⟨BN254.CURVE_Order⟩⟩ = true ∧
    SecretKey.DeserializeHexStr BN254 NewSecretKey
        (SecretKey.SerializeToHexStr BN254 ⟨⟨BN254.CURVE_Order⟩⟩)
      = (⟨⟨0⟩⟩, none) ∧
    (SecretKey.DeserializeHexStr BN254 NewSecretKey
        (SecretKey.SerializeToHexStr BN254 ⟨⟨BN254.CURVE_Order⟩⟩)).1.IsEqual BN254
      ⟨⟨BN254.CURVE_Order⟩⟩ = false :=
  ⟨by decide, rfl, rfl⟩

/-- Claim C12, amended. For every secret key `sk` and every receiver,
`DeserializeHexStr` on `sk.SerializeToHexStr()` returns `nil` and yields the
key whose value is the value of `sk` reduced modulo r; the result is
`IsEqual` to `sk` exactly when `sk` holds a scalar, a value below r. -/
theorem C12_roundtrip_exactly_below_order (P : Params) (recv sk : SecretKey) :
    (SecretKey.DeserializeHexStr P recv (sk.SerializeToHexStr P)).2 = none ∧
    (SecretKey.DeserializeHexStr P recv (sk.SerializeToHexStr P)).1.v.GetBIG P
      = sk.v.GetBIG P % P.CURVE_Order ∧
    ((SecretKey.DeserializeHexStr P recv (sk.SerializeToHexStr P)).1.IsEqual P sk = true ↔
      sk.v.GetBIG P < P.CURVE_Order) := by
  have hr : 0 < P.CURVE_Order := Nat.zero_lt_of_lt P.order_gt_one
  have hdec : SecretKey.DeserializeHexStr P recv (sk.SerializeToHexStr P)
      = (⟨FP_fromBytes P (toBytesBE P.MODBYTES (sk.v.redc P))⟩, none) := by
    unfold SecretKey.DeserializeHexStr SecretKey.SerializeToHexStr FP.ToString
    rw [hex2byte_EncodeToString, map_mod_of_lt _ (toBytesBE_lt _ _)]
  have hval : (FP_fromBytes P (toBytesBE P.MODBYTES (sk.v.redc P))).redc P
      = sk.v.redc P % P.CURVE_Order := by
    show (BIG.FromBytes P (toBytesBE P.MODBYTES (sk.v.redc P)) % P.CURVE_Order) % P.Modulus = _
    rw [BIG.FromBytes_toBytesBE,
      Nat.mod_eq_of_lt (lt_of_lt_of_le (FP.redc_lt P sk.v) P.modulus_fits),
      Nat.mod_eq_of_lt (lt_trans (Nat.mod_lt _ hr) P.order_lt_modulus)]
  rw [hdec]
  refine ⟨rfl, hval, ?_⟩
  simp only [SecretKey.IsEqual, FP.Equals, hval, decide_eq_true_eq]
  show sk.v.redc P % P.CURVE_Order = sk.v.redc P ↔ sk.v.redc P < P.CURVE_Order
  constructor
  · intro h
    rw [← h]
    exact Nat.mod_lt _ hr
  · exact Nat.mod_eq_of_lt

/-- Claim C13. `hex2byte` returns the error "odd length" and no bytes on every
string of odd length, and on the hex string `hex.EncodeToString(b)` of a byte
array `b` it returns `b` with a `nil` error. -/
theorem C13_hex2byte_odd_length_and_roundtrip :
    (∀ s : List Char, s.length % 2 = 1 →
      hex2byte s = ([], some (Error.New "odd length"))) ∧
    (∀ b : List Nat, (∀ x ∈ b, x < 256) → hex2byte (EncodeToString b) = (b, none)) ∧
    hex2byte ['0', 'a', 'f'] = ([], some (Error.New "odd length")) ∧
    hex2byte (EncodeToString [0, 1, 255, 16, 171]) = ([0, 1, 255, 16, 171], none) := by
  refine ⟨hex2byte_odd, ?_, rfl, rfl⟩
  intro b hb
  rw [hex2byte_EncodeToString, map_mod_of_lt b hb]

/-- Claim C14 as stated, refuted. A valid hex string of 66 characters, which
decodes to 33 bytes and not to the 32 of a scalar: `ID.SetHexString` returns
`nil` and stores the value of the first 32 bytes, dropping the last one. -/
theorem C14_counterexample :
    (hex2byte (List.replicate 64 '0' ++ ['f', 'f'])).1.length = 33 ∧
    33 ≠ BN254.MODBYTES ∧
    ID.SetHexString BN254 ⟨⟨7⟩⟩ (List.replicate 64 '0' ++ ['f', 'f']) = (⟨⟨0⟩⟩, none) :=
  ⟨rfl, by decide, rfl⟩

/-- Claim C14, amended. `ID.SetHexString` checks the hex syntax and not the
number of bytes: it returns a non-nil error, with the receiver as it was,
exactly on the strings of odd length and the strings with a character that is
no hex digit; on the hex string of `MODBYTES` bytes followed by any further
bytes it returns `nil` and stores the decode of the first `MODBYTES` bytes. -/
theorem C14_SetHexString_checks_syntax_only (P : Params) (id : ID) (s : List Char) :
    ((ID.SetHexString P id s).2 ≠ none ↔
      (s.length % 2 = 1 ∨ ∃ c ∈ s, fromHexChar c = none)) ∧
    ((ID.SetHexString P id s).2 ≠ none → (ID.SetHexString P id s).1 = id) ∧
    (∀ b extra : List Nat, b.length = P.MODBYTES → (∀ x ∈ b ++ extra, x < 256) →
      ID.SetHexString P id (EncodeToString (b ++ extra)) = (⟨FP_fromBytes P b⟩, none)) := by
  have key : (ID.SetHexString P id s).2 = (hex2byte s).2 ∧
      ((ID.SetHexString P id s).2 ≠ none → (ID.SetHexString P id s).1 = id) := by
    unfold ID.SetHexString
    rcases hex2byte s with ⟨b, _ | e⟩ <;> simp
  refine ⟨?_, key.2, ?_⟩
  · rw [key.1]
    exact hex2byte_error_iff s
  · intro b extra hb hbytes
    unfold ID.SetHexString
    rw [hex2byte_EncodeToString, map_mod_of_lt _ hbytes]
    show ((⟨FP_fromBytes P (b ++ extra)⟩ : ID), (none : Option Error)) = _
    rw [FP_fromBytes_take P b extra hb]

/-- Claim C15. What `ID.Serialize` returns: `NLEN * sizeof(Chunk)` bytes, the
size of its buffer, of which the first `MODBYTES` are the big-endian encoding
of the identity's value and the rest are zero; `GetHexString` returns twice as
many hex characters.  With the constants of BN254 these are 40 bytes and 80
characters, for a scalar width `MODBYTES` of 32. -/
theorem C15_Serialize_fills_a_limb_sized_buffer (P : Params) (id : ID) :
    (id.Serialize P).length = P.NLEN * P.CHUNK ∧
    (id.Serialize P).take P.MODBYTES = toBytesBE P.MODBYTES (id.v.GetBIG P) ∧
    (id.Serialize P).drop P.MODBYTES = List.replicate (P.NLEN * P.CHUNK - P.MODBYTES) 0 ∧
    (id.GetHexString P).length = 2 * (P.NLEN * P.CHUNK) ∧
    BN254.MODBYTES = 32 ∧
    (ID.Serialize BN254 ⟨⟨1⟩⟩).length = 40 ∧
    (ID.GetHexString BN254 ⟨⟨1⟩⟩).length = 80 := by
  have hfit := P.buffer_fits
  have hser : id.Serialize P
      = toBytesBE P.MODBYTES (id.v.GetBIG P)
        ++ List.replicate (P.NLEN * P.CHUNK - P.MODBYTES) 0 := by
    show toBytesBE P.MODBYTES (id.v.redc P)
        ++ (List.replicate (P.NLEN * P.CHUNK) 0).drop P.MODBYTES = _
    rw [List.drop_replicate]
    rfl
  have hlen : (id.Serialize P).length = P.NLEN * P.CHUNK := by
    rw [hser, List.length_append, toBytesBE_length, List.length_replicate]
    omega
  refine ⟨hlen, ?_, ?_, ?_, rfl, rfl, rfl⟩
  · rw [hser, List.take_left' (toBytesBE_length _ _)]
  · rw [hser, List.drop_left' (toBytesBE_length _ _)]
  · unfold ID.GetHexString
    rw [EncodeToString_length, hlen]

/-- Claim C16 as stated, refuted. For `k = 2` and a configured reader whose
stream is empty, `GetMasterSecretKey` returns no list: it panics in
`SetByCSPRNG`. -/
theorem C16_counterexample :
    (1 : Int) ≤ 2 ∧
    SecretKey.GetMasterSecretKey BN254 ⟨some ⟨[], none⟩, fun _ => 0, 0⟩ ⟨⟨9⟩⟩ 2
      = .panic "Couldn't read from sRandReader. Got an error (printed out on previous lines." :=
  ⟨by decide, rfl⟩

/-- Claim C16, amended. For every `k ≥ 1` and every configured reader whose
stream holds at least `(k - 1) * MODBYTES` bytes, `sk.GetMasterSecretKey(k)`
returns the list of `sk` followed by the decodes of the first `k - 1`
successive blocks of `MODBYTES` bytes of the stream: `k` scalars, element 0
the receiver, element `i` the decode of the `i`-th block; the list is given by
`sk`, `k` and the stream alone, and the reader is left at the rest of the
stream. -/
theorem C16_GetMasterSecretKey_decodes_successive_blocks (P : Params) (W : RandState)
    (rd : Reader) (sk : SecretKey) (k : Nat) (hrd : W.sRandReader = some rd) (hk : 1 ≤ k)
    (hlen : (k - 1) * P.MODBYTES ≤ rd.data.length) :
    ∃ W1 msk, SecretKey.GetMasterSecretKey P W sk (k : Int) = .ret (W1, msk) ∧
      msk = sk :: (List.range (k - 1)).map (fun j =>
        (⟨FP_fromBytes P ((rd.data.drop (j * P.MODBYTES)).take P.MODBYTES)⟩ : SecretKey)) ∧
      msk.length = k ∧
      msk[0]? = some sk ∧
      (∀ i, 1 ≤ i → i < k → msk[i]? = some
        ⟨FP_fromBytes P ((rd.data.drop ((i - 1) * P.MODBYTES)).take P.MODBYTES)⟩) ∧
      W1.sRandReader = some { rd with data := rd.data.drop ((k - 1) * P.MODBYTES) } := by
  refine ⟨{ W with sRandReader := some { rd with data := rd.data.drop ((k - 1) * P.MODBYTES) } },
    _, ?_, rfl, ?_, List.getElem?_cons_zero, ?_, rfl⟩
  · unfold SecretKey.GetMasterSecretKey
    rw [if_neg (by omega), if_neg (by omega), Int.toNat_ofNat,
      SecretKey.GetMasterSecretKey.loop_blocks P (k - 1) W rd [sk] hrd hlen]
    rfl
  · simp only [List.length_cons, List.length_map, List.length_range]
    omega
  · intro i h1 h2
    obtain ⟨j, rfl⟩ : ∃ j, i = j + 1 := ⟨i - 1, by omega⟩
    simp only [List.getElem?_cons_succ, List.getElem?_map, Nat.add_sub_cancel]
    rw [List.getElem?_range (by omega)]
    rfl

theorem C16_witness :
    (⟨some ⟨List.replicate 63 0 ++ [5], none⟩, fun _ => 0, 0⟩ : RandState).sRandReader
      = some ⟨List.replicate 63 0 ++ [5], none⟩ ∧
    1 ≤ 3 ∧
    (3 - 1) * BN254.MODBYTES ≤ (List.replicate 63 0 ++ [5]).length ∧
    ∃ W1 msk, SecretKey.GetMasterSecretKey BN254
        ⟨some ⟨List.replicate 63 0 ++ [5], none⟩, fun _ => 0, 0⟩ ⟨⟨9⟩⟩ 3 = .ret (W1, msk) ∧
      msk = [⟨⟨9⟩⟩, ⟨⟨0⟩⟩, ⟨⟨5⟩⟩] :=
  ⟨rfl, by decide, by decide, by
    obtain ⟨W1, msk, h1, h2, _⟩ := C16_GetMasterSecretKey_decodes_successive_blocks BN254
      ⟨some ⟨List.replicate 63 0 ++ [5], none⟩, fun _ => 0, 0⟩
      ⟨List.replicate 63 0 ++ [5], none⟩ ⟨⟨9⟩⟩ 3 rfl (by decide) (by decide)
    exact ⟨W1, msk, h1, by rw [h2]; rfl⟩⟩

/-- Claim C17. With a reader configured that has fewer than `MODBYTES` bytes
left, at the end of its stream or failing with an error, `SetByCSPRNG` panics:
it returns nothing and stores nothing.  Whenever `SetByCSPRNG` returns, the
error is `nil` and the receiver holds the decode of the `MODBYTES` bytes that
were read, which with a reader configured are the next `MODBYTES` bytes of its
stream. -/
theorem C17_SetByCSPRNG_panics_or_decodes (P : Params) (W : RandState) (sk : SecretKey) :
    (∀ rd, W.sRandReader = some rd → rd.data.length < P.MODBYTES →
      SecretKey.SetByCSPRNG P W sk
        = .panic "Couldn't read from sRandReader. Got an error (printed out on previous lines.") ∧
    (∀ W1 sk1 e, SecretKey.SetByCSPRNG P W sk = .ret (W1, sk1, e) →
      e = none ∧
      ∃ b : List Nat, b.length = P.MODBYTES ∧ sk1 = ⟨FP_fromBytes P b⟩ ∧
        ∀ rd, W.sRandReader = some rd →
          b = rd.data.take P.MODBYTES ∧
          W1.sRandReader = some { rd with data := rd.data.drop P.MODBYTES }) := by
  refine ⟨fun rd hrd hlen => SecretKey.SetByCSPRNG_short P W sk rd hrd hlen, ?_⟩
  intro W1 sk1 e h
  cases hrd : W.sRandReader with
  | none =>
    simp only [SecretKey.SetByCSPRNG, hrd, Outcome.ret.injEq, Prod.mk.injEq] at h
    refine ⟨h.2.2.symm, _, ?_, h.2.1.symm, ?_⟩
    · rw [List.length_map, List.length_range]
    · intro rd hrd'
      cases hrd'
  | some rd =>
    by_cases hlen : P.MODBYTES ≤ rd.data.length
    · rw [SecretKey.SetByCSPRNG_read P W sk rd hrd hlen] at h
      simp only [Outcome.ret.injEq, Prod.mk.injEq] at h
      refine ⟨h.2.2.symm, rd.data.take P.MODBYTES, ?_, h.2.1.symm, ?_⟩
      · rw [List.length_take]
        omega
      · intro rd' hrd'
        cases hrd'
        exact ⟨rfl, by rw [← h.1]⟩
    · rw [SecretKey.SetByCSPRNG_short P W sk rd hrd (by omega)] at h
      cases h

/-- Claim C18. The conversion of an identity to a share index in `Sign.Recover`
at the identities 1, 2, 10 and 255, with the constants of BN254: the hex
string of an identity has 80 characters; for identity 1 `strconv.Atoi` reads
it as 10^16 and `byte` of that is 0, not 1; for identity 2 the index is 0 as
well; for the identities 10 and 255 `strconv.Atoi` fails.  The loop of
`Recover` on the identities 1 and 2 builds two shares with index 0. -/
theorem C18_identity_conversion_loses_the_index :
    (ID.GetHexString BN254 ⟨⟨1⟩⟩).length = 80 ∧
    Atoi BN254.IntSize (ID.GetHexString BN254 ⟨⟨1⟩⟩) = .ok 10000000000000000 ∧
    byte 10000000000000000 = 0 ∧
    Atoi BN254.IntSize (ID.GetHexString BN254 ⟨⟨2⟩⟩) = .ok 20000000000000000 ∧
    byte 20000000000000000 = 0 ∧
    Atoi BN254.IntSize (ID.GetHexString BN254 ⟨⟨10⟩⟩)
      = .error (Error.ErrSyntax (ID.GetHexString BN254 ⟨⟨10⟩⟩)) ∧
    Atoi BN254.IntSize (ID.GetHexString BN254 ⟨⟨255⟩⟩)
      = .error (Error.ErrSyntax (ID.GetHexString BN254 ⟨⟨255⟩⟩)) ∧
    ∃ shs, Sign.Recover.loop BN254 zmodCurve [⟨Zr.mk 1⟩, ⟨Zr.mk 2⟩] [⟨⟨1⟩⟩, ⟨⟨2⟩⟩] 2 2 0 []
        = .ret (.ok shs) ∧
      shs.map SHARE.ID = [0, 0] :=
  ⟨rfl, rfl, rfl, rfl, rfl, rfl, rfl, _, rfl, rfl⟩

/-- Claim C19. On a non-empty list of shares and a list `from` at least as
long, `Sign.Recover` returns; the returned error is non-nil exactly when
`strconv.Atoi` rejects the hex string of one of the first `len(shares)`
identities, and then the receiver is as it was; in every other case, repeated
identities included, the error is `nil`. -/
theorem C19_Recover_error_iff_Atoi_rejects {G1 G2 GT : Type} [AddCommGroup G1] (P : Params)
    (C : Curve G1 G2 GT) (sig : Sign G1) (shares : List (Sign G1)) (from' : List ID)
    (hne : shares ≠ []) (hlen : shares.length ≤ from'.length) :
    ∃ s e, Sign.Recover P C sig shares from' = .ret (s, e) ∧
      (e ≠ none ↔ ∃ j id err, j < shares.length ∧ from'[j]? = some id ∧
        Atoi P.IntSize (id.GetHexString P) = .error err) ∧
      (e ≠ none → s = sig) := by
  obtain ⟨share, rest, rfl⟩ := List.exists_cons_of_ne_nil hne
  have hcases := Sign.Recover_cases P C sig (share :: rest) from' hlen
  by_cases hbad : ∃ j id err, j < (share :: rest).length ∧ from'[j]? = some id ∧
      Atoi P.IntSize (id.GetHexString P) = .error err
  · obtain ⟨e, he⟩ := hcases.1 hbad
    exact ⟨sig, some e, he, ⟨fun _ => hbad, fun _ => by simp⟩, fun _ => rfl⟩
  · obtain ⟨shs, hs⟩ := hcases.2 (by
      intro j id hj hid
      cases hA : Atoi P.IntSize (id.GetHexString P) with
      | error err => exact absurd ⟨j, id, err, hj, hid, hA⟩ hbad
      | ok v => exact ⟨v, rfl⟩)
    exact ⟨_, none, hs, ⟨fun h => absurd rfl h, fun h => absurd h hbad⟩, fun h => absurd rfl h⟩

theorem C19_witness :
    [(⟨Zr.mk 1⟩ : Sign Zr), ⟨Zr.mk 2⟩] ≠ [] ∧
    [(⟨Zr.mk 1⟩ : Sign Zr), ⟨Zr.mk 2⟩].length ≤ [(⟨⟨1⟩⟩ : ID), ⟨⟨10⟩⟩].length ∧
    ∃ s e, Sign.Recover BN254 zmodCurve (⟨Zr.mk 7⟩ : Sign Zr) [⟨Zr.mk 1⟩, ⟨Zr.mk 2⟩]
        [⟨⟨1⟩⟩, ⟨⟨10⟩⟩] = .ret (s, e) ∧
      (e ≠ none ↔ ∃ j id err, j < [(⟨Zr.mk 1⟩ : Sign Zr), ⟨Zr.mk 2⟩].length ∧
        [(⟨⟨1⟩⟩ : ID), ⟨⟨10⟩⟩][j]? = some id ∧
        Atoi BN254.IntSize (id.GetHexString BN254) = .error err) ∧
      (e ≠ none → s = ⟨Zr.mk 7⟩) :=
  ⟨by simp, by decide,
    C19_Recover_error_iff_Atoi_rejects BN254 zmodCurve (⟨Zr.mk 7⟩ : Sign Zr)
      [⟨Zr.mk 1⟩, ⟨Zr.mk 2⟩] [⟨⟨1⟩⟩, ⟨⟨10⟩⟩] (by simp) (by decide)⟩

/-- Claim C20. On the empty list `SecretKey.Set` returns its error with the
receiver as it was, and `PublicKey.Set` returns its error with the receiver
replaced by a fresh `NewECP2()` point: a receiver that held another point has
lost it. -/
theorem C20_empty_list_receivers {G2 : Type} [AddCommGroup G2] (P : Params) (sk : SecretKey)
    (pk : PublicKey G2) (id : ID) :
    SecretKey.Set P sk [] id = (sk, some (Error.New "No secret keys given.")) ∧
    PublicKey.Set P pk [] id = (⟨NewECP2⟩, some (Error.New "No secret keys given.")) ∧
    (pk.v ≠ NewECP2 → (PublicKey.Set P pk [] id).1 ≠ pk) := by
  refine ⟨rfl, rfl, ?_⟩
  intro h heq
  apply h
  rw [← heq]
  rfl

end Claims

end bls
